import Mathlib

/-! Frame-to-detections pipeline of `InferenceController`.

Shallow embedding of
`Intel_SighPP_CMake/Intel_SighPP_CMake/src/ml_lib/inference_controller.hpp`
(`struct DetectionResult`, `InferenceController::start`,
`InferenceController::process_frames`) and the properties proved about it.

Numeric conventions of the embedding.

* A finite `float` or `double` value is represented by its exact rational value.
  The values a `float` can take are those of the structure `F32`. Infinities and
  NaN are not represented.
* `0.95`, `1.05` and `0.55` are `double` literals: the binary64 values nearest to
  the decimal fractions. A product of two `double`s is the binary64 value nearest
  to the exact product, ties to even (`mulDouble`): IEEE-754 arithmetic in the
  default rounding mode, each `double` expression evaluated in `double`.
* A conversion from floating point to the 32-bit `int` truncates toward zero when
  the truncated value fits `int`. When it does not, C++ leaves the conversion
  undefined; the embedding takes what the x86-64 conversion instructions deliver,
  `INT_MIN` (`truncToInt`).
* The coordinate fields of `DetectionResult` are declared `float`; storing an `int`
  there converts it to the nearest binary32 value (`intToFloat`).
* Buffer indices are natural numbers. `detection_index * object_size + k` is
  computed in `unsigned int` and `ch * image_size + pixel` in `size_t`; both stay
  below the size of a buffer that exists in memory, so no wrap-around is modelled.
-/

/-! ## IEEE-754 rounding -/

/-- Nearest integer to `x`; a tie goes to the even neighbour. -/
def roundHalfEven (x : ℚ) : ℤ :=
  if x - ⌊x⌋ < 1 / 2 then ⌊x⌋
  else if 1 / 2 < x - ⌊x⌋ then ⌊x⌋ + 1
  else if ⌊x⌋ % 2 = 0 then ⌊x⌋ else ⌊x⌋ + 1

/-- Exponent of the last mantissa bit of `q` in a binary format with `t` fraction
bits (precision `t + 1`) whose least exponent of the last bit is `emin`. -/
def ulpExp (t : ℕ) (emin : ℤ) (q : ℚ) : ℤ := max emin (Int.log 2 |q| - t)

/-- Round-to-nearest-even into the binary format with `t` fraction bits and least
last-bit exponent `emin` (gradual underflow). Overflow to infinity is not
represented: every value rounded in this development is far below the largest
finite value of its format. -/
def roundBinary (t : ℕ) (emin : ℤ) (q : ℚ) : ℚ :=
  roundHalfEven (q / 2 ^ ulpExp t emin q) * 2 ^ ulpExp t emin q

/-- The values of the binary format: `m * 2 ^ e` with `|m| < 2 ^ (t + 1)`, `emin ≤ e`. -/
def Representable (t : ℕ) (emin : ℤ) (d : ℚ) : Prop :=
  ∃ m e : ℤ, |m| < 2 ^ (t + 1) ∧ emin ≤ e ∧ d = m * 2 ^ e

/-- Rounding to binary64 (`double`): 52 fraction bits, least subnormal `2 ^ (-1074)`. -/
def toDouble (q : ℚ) : ℚ := roundBinary 52 (-1074) q

/-- Rounding to binary32 (`float`): 23 fraction bits, least subnormal `2 ^ (-149)`. -/
def toFloat (q : ℚ) : ℚ := roundBinary 23 (-149) q

/-- The `double` product `a * b`. -/
def mulDouble (a b : ℚ) : ℚ := toDouble (a * b)

/-- Truncation toward zero. -/
def truncate (q : ℚ) : ℤ := if 0 ≤ q then ⌊q⌋ else ⌈q⌉

/-- The conversion `(int) x` to the 32-bit `int`: truncation toward zero when the
truncated value lies in `[-2 ^ 31, 2 ^ 31)`; otherwise `INT_MIN = -2 ^ 31`, the result
of the x86-64 conversion (`cvttsd2si`, `cvttss2si`) for a value out of range, which
C++ leaves undefined. -/
def truncToInt (q : ℚ) : ℤ :=
  if -2 ^ 31 ≤ truncate q ∧ truncate q < 2 ^ 31 then truncate q else -2 ^ 31

/-- The truncation of `q` toward zero is a value of the 32-bit `int`. -/
def fits_int (q : ℚ) : Prop := -2 ^ 31 ≤ truncate q ∧ truncate q < 2 ^ 31

/-- The conversion of an `int` to `float` made when it initialises a `float` field:
the nearest `float`, as the x86-64 conversion gives it (C++ leaves the choice between
the two neighbours to the implementation; integers of magnitude up to `2 ^ 24` are
exact in every case). -/
def intToFloat (n : ℤ) : ℚ := toFloat n

/-- The `double` literal `0.95`. -/
def c0_95 : ℚ := toDouble (95 / 100)

/-- The `double` literal `1.05`. -/
def c1_05 : ℚ := toDouble (105 / 100)

/-- The `double` literal `0.55`. -/
def c0_55 : ℚ := toDouble (55 / 100)

/-- A finite single-precision value `m * 2 ^ e`: a 24-bit mantissa with sign and an
exponent in the binary32 range. One element of the `float` buffers. -/
structure F32 where
  m : ℤ
  e : ℤ
  hm : m.natAbs < 2 ^ 24
  he : -149 ≤ e ∧ e ≤ 104

namespace F32

/-- The rational value of a `float`. -/
def toRat (x : F32) : ℚ := x.m * 2 ^ x.e

/-- The `float` of an integer below `2 ^ 24` in magnitude. -/
def ofInt (n : ℤ) (h : n.natAbs < 2 ^ 24) : F32 := ⟨n, 0, h, by decide⟩

end F32

/-! ## Data model -/

/-- Type `struct DetectionResult`: four `float` coordinates, an `int` label, a `double`
distance; every member has a default initialiser `0`. -/
structure DetectionResult where
  xmin : ℚ
  ymin : ℚ
  xmax : ℚ
  ymax : ℚ
  label : ℤ
  distance : ℚ
deriving DecidableEq

/-- OpenCV `cv::Size`, declared by OpenCV as `Size_(_Tp _width, _Tp _height)`: the first
constructor argument is the width, the second the height. -/
structure Size where
  width : ℕ
  height : ℕ
deriving DecidableEq

/-- A `cv::Mat` of `cv::Vec3b` pixels: `data p c` is channel `c` of the pixel that
`at<cv::Vec3b>(p)` returns, the `p`-th pixel in row-major order. -/
structure Mat where
  rows : ℕ
  cols : ℕ
  data : ℕ → ℕ → UInt8

/-- The input blob seen through its write mapping, together with the log of the
positions stored to (the log is bookkeeping of the embedding, not program state). -/
structure InputBlob where
  data : ℕ → UInt8
  stores : List ℕ

/-- The data members of `class InferenceController` that the two member functions
read or write. The blob and request handles are owned by the backend. -/
structure InferenceController where
  path_to_model_ : String
  config_ : String
  channels_count : ℕ
  input_height : ℕ
  input_width : ℕ
  max_proposals : ℕ
  object_size : ℕ
  results_ : List DetectionResult
  input_layer : String
  output_layer : String

/-- The calls into the Inference Engine and OpenCV made by `start` and
`process_frames`. Each Inference Engine call either returns or throws an exception
derived from `std::exception` (`Except.error` with its `what()` text). -/
structure Backend where
  /-- Constructor `InferenceEngine::Core core;` -/
  Core : Except String Unit
  /-- Call `core.SetConfig({{"MULTI_DEVICE_PRIORITIES", "GPU,CPU"}}, "MULTI")` -/
  SetConfig : Except String Unit
  /-- Call `core.ReadNetwork(path_to_model_)` -/
  ReadNetwork : String → Except String Unit
  /-- Calls `getInputsInfo()`, `setPrecision(U8)`: the name of the first input. -/
  InputsInfo : Except String String
  /-- Calls `getOutputsInfo()`, `setPrecision(FP32)`: the name of the first output. -/
  OutputsInfo : Except String String
  /-- Call `core.LoadNetwork(network_main, config_)` -/
  LoadNetwork : String → Except String Unit
  /-- Call `exec_network_main.CreateInferRequest()` in `start` -/
  CreateInferRequest : Except String Unit
  /-- Call `infer_request.GetBlob(input_layer)->getTensorDesc().getDims()` -/
  inputDims : String → Except String (List ℕ)
  /-- Call `infer_request.GetBlob(output_layer)->getTensorDesc().getDims()` -/
  outputDims : String → Except String (List ℕ)
  /-- Call `cv::resize(src, dst, dsize)`: the image `dst`, or a `cv::Exception`. -/
  resize : Mat → Size → Except String Mat
  /-- Calls `CreateInferRequest`, `GetBlob`, `as<MemoryBlob>` and `wmap` in
  `process_frames`: the memory of the fresh input blob. -/
  inputBlob : Except String (ℕ → UInt8)
  /-- Call `infer_request.Infer()` followed by `rmap`: the output blob computed from the
  contents of the input blob. -/
  Infer : (ℕ → UInt8) → Except String (ℕ → F32)

namespace InferenceController

/-! ## `process_frames`: planar encode (lines 143-149) -/

/-- The store `input_data[idx] = v`. -/
def store (input_data : InputBlob) (idx : ℕ) (v : UInt8) : InputBlob :=
  ⟨Function.update input_data.data idx v, input_data.stores ++ [idx]⟩

/-- The inner loop `for (size_t ch = 0; ch < channels_count; ++ch)`. -/
def encode_pixel (img_input : Mat) (image_size channels_count pixel : ℕ)
    (input_data : InputBlob) : InputBlob :=
  (List.range channels_count).foldl
    (fun buf ch => store buf (ch * image_size + pixel) (img_input.data pixel ch)) input_data

/-- The outer loop `for (size_t pixel = 0; pixel < image_size; ++pixel)`. -/
def encode_input (img_input : Mat) (image_size channels_count : ℕ)
    (input_data : InputBlob) : InputBlob :=
  (List.range image_size).foldl
    (fun buf pixel => encode_pixel img_input image_size channels_count pixel buf) input_data

/-- The target size of the resize step, `cv::Size(input_height, input_width)`. -/
def resize_dsize (self : InferenceController) : Size :=
  Size.mk self.input_height self.input_width

/-! ## `process_frames`: decode and filter (lines 157-180) -/

/-- The read `detections[detection_index * object_size + k]`. -/
def slot_field (detections : ℕ → F32) (object_size detection_index k : ℕ) : ℚ :=
  (detections (detection_index * object_size + k)).toRat

/-- Local `float image_id = detections[detection_index * object_size + 0];` -/
def image_id (detections : ℕ → F32) (object_size detection_index : ℕ) : ℚ :=
  slot_field detections object_size detection_index 0

/-- Local `int object_label = detections[detection_index * object_size + 1];` -/
def object_label (detections : ℕ → F32) (object_size detection_index : ℕ) : ℤ :=
  truncToInt (slot_field detections object_size detection_index 1)

/-- Local `float confidence = detections[detection_index * object_size + 2];` -/
def confidence (detections : ℕ → F32) (object_size detection_index : ℕ) : ℚ :=
  slot_field detections object_size detection_index 2

/-- Local `int xmin = (int)(0.95 * detections[detection_index * object_size + 3] * 960);` -/
def xmin (detections : ℕ → F32) (object_size detection_index : ℕ) : ℤ :=
  truncToInt (mulDouble (mulDouble c0_95 (slot_field detections object_size detection_index 3)) 960)

/-- Local `int ymin = (int)(0.95 * detections[detection_index * object_size + 4] * 720);` -/
def ymin (detections : ℕ → F32) (object_size detection_index : ℕ) : ℤ :=
  truncToInt (mulDouble (mulDouble c0_95 (slot_field detections object_size detection_index 4)) 720)

/-- Local `int xmax = (int)(1.05 * detections[detection_index * object_size + 5] * 960);` -/
def xmax (detections : ℕ → F32) (object_size detection_index : ℕ) : ℤ :=
  truncToInt (mulDouble (mulDouble c1_05 (slot_field detections object_size detection_index 5)) 960)

/-- Local `int ymax = (int)(1.05 * detections[detection_index * object_size + 6] * 720);` -/
def ymax (detections : ℕ → F32) (object_size detection_index : ℕ) : ℤ :=
  truncToInt (mulDouble (mulDouble c1_05 (slot_field detections object_size detection_index 6)) 720)

/-- The record built inside the `if`: the four coordinates after `std::max(0, ·)` and
`std::min(960, ·)` / `std::min(720, ·)`, converted to the `float` fields, the label,
and the default `distance`. -/
def current_detection (detections : ℕ → F32) (object_size detection_index : ℕ) :
    DetectionResult :=
  { xmin := intToFloat (max 0 (xmin detections object_size detection_index))
    ymin := intToFloat (max 0 (ymin detections object_size detection_index))
    xmax := intToFloat (min 960 (xmax detections object_size detection_index))
    ymax := intToFloat (min 720 (ymax detections object_size detection_index))
    label := object_label detections object_size detection_index
    distance := 0 }

/-- The test `confidence > 0.55 && object_label == 1`; `confidence` is promoted to
`double` and compared with the `double` literal. -/
def accepted (detections : ℕ → F32) (object_size detection_index : ℕ) : Prop :=
  c0_55 < confidence detections object_size detection_index ∧
    object_label detections object_size detection_index = 1

instance (detections : ℕ → F32) (object_size detection_index : ℕ) :
    Decidable (accepted detections object_size detection_index) := by
  unfold accepted; infer_instance

/-- The loop body after the `break` test: `results_.push_back(current_detection)` when
the slot passes the filter. -/
def decode_slot (detections : ℕ → F32) (object_size detection_index : ℕ)
    (results_ : List DetectionResult) : List DetectionResult :=
  if accepted detections object_size detection_index then
    results_ ++ [current_detection detections object_size detection_index]
  else results_

/-- The loop `for (detection_index = 0; detection_index < max_proposals; detection_index++)`,
entered at `detection_index` with `remaining = max_proposals - detection_index`
iterations to go; `image_id < 0` leaves it. -/
def decode_loop (detections : ℕ → F32) (object_size : ℕ) :
    ℕ → ℕ → List DetectionResult → List DetectionResult
  | 0, _, results_ => results_
  | remaining + 1, detection_index, results_ =>
    if image_id detections object_size detection_index < 0 then results_
    else decode_loop detections object_size remaining (detection_index + 1)
      (decode_slot detections object_size detection_index results_)

/-- The detections `process_frames` returns for the output blob `detections`: the
decode loop run on the cleared `results_`. -/
def decode_output (self : InferenceController) (detections : ℕ → F32) : List DetectionResult :=
  decode_loop detections self.object_size self.max_proposals 0 []

/-- The loop reaches the body of slot `i`: the index is below `max_proposals` and no
slot up to `i` has a negative `image_id`. -/
def reached (detections : ℕ → F32) (object_size max_proposals i : ℕ) : Prop :=
  i < max_proposals ∧ ∀ j, j ≤ i → ¬ image_id detections object_size j < 0

instance (detections : ℕ → F32) (object_size max_proposals i : ℕ) :
    Decidable (reached detections object_size max_proposals i) := by
  unfold reached; infer_instance

/-! ## `process_frames` and `start` -/

/-- One call made inside a `try` block whose handler is
`catch (const std::exception& e) { SPDLOG_ERROR(e.what()); }` and is followed by the end
of the function. When the call returns, the block goes on with `rest`; when it throws,
the handler logs, control reaches the end of the function, and no value is returned
(`none`), the controller staying as it is at the throw. -/
def in_try {α β : Type} (call : Except String α) (self : InferenceController)
    (rest : α → InferenceController × Option β) : InferenceController × Option β :=
  match call with
  | .error _ => (self, none)
  | .ok a => rest a

/-- Member `process_frames(color_matrix, depth_matrix)`. The second component is the value
returned: `some results_` from `return results_;`, `none` when an exception was
caught, after which control reaches the end of the function without a `return`. -/
def process_frames (be : Backend) (self : InferenceController)
    (color_matrix _depth_matrix : Mat) : InferenceController × Option (List DetectionResult) :=
  let self := { self with results_ := [] }
  in_try (be.resize color_matrix (resize_dsize self)) self fun img_input =>
  let image_size := self.input_height * self.input_width
  in_try be.inputBlob self fun input_memory =>
  let input_data := encode_input img_input image_size self.channels_count ⟨input_memory, []⟩
  in_try (be.Infer input_data.data) self fun detections =>
  let self := { self with
    results_ := decode_loop detections self.object_size self.max_proposals 0 self.results_ }
  (self, some self.results_)

/-- Element `dims.at(i)` converted to `unsigned int`; `at` throws `std::out_of_range`. -/
def dim_at (dims : List ℕ) (i : ℕ) : Except String ℕ :=
  match dims.get? i with
  | some d => .ok (d % 2 ^ 32)
  | none => .error "vector::at"

/-- Member `start()`. The second component is the value returned: `some true` from
`return true;`, `none` when an exception was caught: the handler logs `e.what()`
and control reaches the end of the function, which has no further `return`. -/
def start (be : Backend) (self : InferenceController) : InferenceController × Option Bool :=
  in_try be.Core self fun _ =>
  in_try (if self.config_ = "MULTI" then be.SetConfig else .ok ()) self fun _ =>
  in_try (be.ReadNetwork self.path_to_model_) self fun _ =>
  in_try be.InputsInfo self fun input_name =>
  let self := { self with input_layer := input_name }
  in_try be.OutputsInfo self fun output_name =>
  let self := { self with output_layer := output_name }
  in_try (be.LoadNetwork self.config_) self fun _ =>
  in_try be.CreateInferRequest self fun _ =>
  in_try (be.inputDims self.input_layer) self fun input_dimensions =>
  in_try (be.outputDims self.output_layer) self fun output_dimensions =>
  in_try (dim_at input_dimensions 1) self fun d1 =>
  let self := { self with channels_count := d1 }
  in_try (dim_at input_dimensions 2) self fun d2 =>
  let self := { self with input_height := d2 }
  in_try (dim_at input_dimensions 3) self fun d3 =>
  let self := { self with input_width := d3 }
  in_try (dim_at output_dimensions 2) self fun o2 =>
  let self := { self with max_proposals := o2 }
  in_try (dim_at output_dimensions 3) self fun o3 =>
  let self := { self with object_size := o3 }
  (self, some true)

/-- The decode loop with `results_` replaced by the list of the slot indices at which
`push_back` runs (bookkeeping of the embedding). -/
def pushed_slots (detections : ℕ → F32) (object_size : ℕ) : ℕ → ℕ → List ℕ
  | 0, _ => []
  | remaining + 1, detection_index =>
    if image_id detections object_size detection_index < 0 then []
    else (if accepted detections object_size detection_index then [detection_index] else []) ++
      pushed_slots detections object_size remaining (detection_index + 1)

end InferenceController

/-- An output blob holding the listed values from index 0 on and `0.0f` after them. -/
def blob_of (l : List F32) : ℕ → F32 := fun j => l.getD j (F32.ofInt 0 (by decide))

/-! ## Concrete inputs of the examples -/

/-- The value `0.0f`. -/
def f32_zero : F32 := F32.ofInt 0 (by decide)

/-- The value `1.0f`. -/
def f32_one : F32 := F32.ofInt 1 (by decide)

/-- The value `-1.0f`. -/
def f32_minus_one : F32 := F32.ofInt (-1) (by decide)

/-- The value `1.5f`. -/
def f32_1_5 : F32 := ⟨3, -1, by decide, by decide⟩

/-- The value `0.5f`. -/
def f32_half : F32 := ⟨1, -1, by decide, by decide⟩

/-- The value `0.4375f`, seven sixteenths. -/
def f32_0_4375 : F32 := ⟨7, -4, by decide, by decide⟩

/-- The value `0.1f`, the `float` nearest to one tenth: `0x1.99999ap-4`. -/
def f32_0_1 : F32 := ⟨13421773, -27, by decide, by decide⟩

/-- The value `0.9f`, the `float` nearest to nine tenths: `0x1.ccccccp-1`. -/
def f32_0_9 : F32 := ⟨15099494, -24, by decide, by decide⟩

/-- The value `0.55f`, the `float` nearest to 0.55: `0x1.19999ap-1`, a little above
0.55. -/
def f32_0_55 : F32 := ⟨9227469, -24, by decide, by decide⟩

/-- The value `65536.0078125f`, the `float` that follows `65536.0f`. -/
def f32_65536_next : F32 := ⟨8388609, -7, by decide, by decide⟩

/-- The value `4194304.0f`, that is `2 ^ 22`. -/
def f32_2_pow_22 : F32 := ⟨1, 22, by decide, by decide⟩

/-- An output blob with one candidate in slot 0 (`image_id` 0) and the terminator
`image_id = -1` in slot 1, for `object_size = 7`. -/
def slot_blob (label conf x0 y0 x1 y1 : F32) : ℕ → F32 :=
  blob_of [f32_zero, label, conf, x0, y0, x1, y1, f32_minus_one]

/-- An output blob whose slots 0 and 1 hold the same candidate (label 1, confidence
`0.9f`, box `(0.1f, 0.1f, 0.5, 0.5)`), with the terminator in slot 2. -/
def twin_blob : ℕ → F32 :=
  blob_of [f32_zero, f32_one, f32_0_9, f32_0_1, f32_0_1, f32_half, f32_half,
    f32_zero, f32_one, f32_0_9, f32_0_1, f32_0_1, f32_half, f32_half, f32_minus_one]

/-- A controller after `start()` on `ssd_mobilenet_v2_coco`: a 3 x 300 x 300 input and
an output of 100 candidates of 7 floats. -/
def controller_ssd : InferenceController :=
  { path_to_model_ := "models/ssd_mobilenet_v2_coco.xml"
    config_ := "MULTI"
    channels_count := 3
    input_height := 300
    input_width := 300
    max_proposals := 100
    object_size := 7
    results_ := []
    input_layer := "image_tensor"
    output_layer := "DetectionOutput" }

/-- A controller holding a detection left by an earlier call. -/
def controller_stale : InferenceController :=
  { controller_ssd with results_ := [⟨1, 2, 3, 4, 1, 0⟩] }

/-- A controller whose network input is 2 rows by 3 columns. -/
def controller_2x3 : InferenceController :=
  { controller_ssd with input_height := 2, input_width := 3 }

/-- A resized image of 2 x 2 pixels whose channel `c` of pixel `p` holds `10 * p + c`. -/
def image_2x2 : Mat := ⟨2, 2, fun p c => (10 * p + c).toUInt8⟩

/-- A 960 x 720 frame with every channel of every pixel equal to 0. -/
def frame_black : Mat := ⟨720, 960, fun _ _ => 0⟩

/-- A backend on which every call succeeds: the resize returns an image of the
requested size with the pixels of the source, the input blob starts zeroed, and
inference yields the blob `detections`. -/
def backend_const (detections : ℕ → F32) : Backend :=
  { Core := .ok ()
    SetConfig := .ok ()
    ReadNetwork := fun _ => .ok ()
    InputsInfo := .ok "image_tensor"
    OutputsInfo := .ok "DetectionOutput"
    LoadNetwork := fun _ => .ok ()
    CreateInferRequest := .ok ()
    inputDims := fun _ => .ok [1, 3, 300, 300]
    outputDims := fun _ => .ok [1, 1, 100, 7]
    resize := fun src dsize => .ok ⟨dsize.height, dsize.width, src.data⟩
    inputBlob := .ok (fun _ => 0)
    Infer := fun _ => .ok detections }

/-- The backend when the model file is missing: `ReadNetwork` throws. -/
def backend_missing_model : Backend :=
  { backend_const (fun _ => f32_zero) with
    ReadNetwork := fun _ => .error "Cannot open model file" }

/-- The min-corner formula of the specification read in exact arithmetic:
`max(0, trunc(0.95 * norm * scale))`. -/
def spec_min_px (norm scale : ℚ) : ℤ := max 0 (truncate (95 / 100 * norm * scale))

/-- The max-corner formula of the specification read in exact arithmetic:
`min(scale, trunc(1.05 * norm * scale))`. -/
def spec_max_px (norm : ℚ) (scale : ℤ) : ℤ := min scale (truncate (105 / 100 * norm * scale))

/-! ## Rounding lemmas -/

theorem floor_le_roundHalfEven (x : ℚ) : ⌊x⌋ ≤ roundHalfEven x := by
  unfold roundHalfEven
  split_ifs <;> omega

theorem roundHalfEven_le_ceil (x : ℚ) : roundHalfEven x ≤ ⌈x⌉ := by
  unfold roundHalfEven
  have h1 : ⌊x⌋ ≤ ⌈x⌉ := Int.floor_le_ceil x
  have h2 : x - ⌊x⌋ ≠ 0 → ⌊x⌋ + 1 ≤ ⌈x⌉ := by
    intro h
    have : (⌊x⌋ : ℚ) < x := lt_of_le_of_ne (Int.floor_le x) (fun e => h (by rw [e]; ring))
    have : ⌊x⌋ < ⌈x⌉ := by
      have := Int.le_ceil x
      exact_mod_cast lt_of_lt_of_le ‹(⌊x⌋ : ℚ) < x› this
    omega
  split_ifs with a b c
  · exact h1
  · exact h2 (by intro h; rw [h] at b; norm_num at b)
  · exact h1
  · refine h2 ?_
    intro h; rw [h] at a; norm_num at a

theorem roundHalfEven_le_of_le_int {x : ℚ} {n : ℤ} (h : x ≤ n) : roundHalfEven x ≤ n :=
  le_trans (roundHalfEven_le_ceil x) (Int.ceil_le.mpr h)

theorem le_roundHalfEven_of_int_le {x : ℚ} {n : ℤ} (h : (n : ℚ) ≤ x) : n ≤ roundHalfEven x :=
  le_trans (Int.le_floor.mpr h) (floor_le_roundHalfEven x)

theorem roundHalfEven_eq_of_near {x : ℚ} {n : ℤ} (h : |x - n| < 1 / 2) : roundHalfEven x = n := by
  rw [abs_lt] at h
  obtain ⟨h1, h2⟩ := h
  unfold roundHalfEven
  by_cases hn : (n : ℚ) ≤ x
  · have hf : ⌊x⌋ = n := by
      rw [Int.floor_eq_iff]; constructor
      · exact hn
      · linarith
    rw [hf, if_pos (by linarith)]
  · push_neg at hn
    have hf : ⌊x⌋ = n - 1 := by
      rw [Int.floor_eq_iff]; push_cast; constructor <;> linarith
    rw [hf]
    push_cast
    rw [if_neg (by linarith), if_pos (by linarith)]
    ring

theorem roundHalfEven_neg (x : ℚ) : roundHalfEven (-x) = -roundHalfEven x := by
  unfold roundHalfEven
  by_cases hx : (⌊x⌋ : ℚ) = x
  · have hf : ⌊-x⌋ = -⌊x⌋ := by
      rw [Int.floor_eq_iff]; push_cast; constructor <;> linarith
    rw [hf]; push_cast
    rw [if_pos (by linarith), if_pos (by linarith)]
  · have hlt : (⌊x⌋ : ℚ) < x := lt_of_le_of_ne (Int.floor_le x) hx
    have hlt2 : x < ⌊x⌋ + 1 := Int.lt_floor_add_one x
    have hf : ⌊-x⌋ = -⌊x⌋ - 1 := by
      rw [Int.floor_eq_iff]; push_cast; constructor <;> linarith
    rw [hf]; push_cast
    split_ifs <;> first | omega | (exfalso; linarith)

theorem log_two_abs_eq {q : ℚ} {k : ℤ} (h1 : (2 : ℚ) ^ k ≤ |q|) (h2 : |q| < 2 ^ (k + 1)) :
    Int.log 2 |q| = k := by
  have hpos : (0 : ℚ) < |q| := lt_of_lt_of_le (by positivity) h1
  have a : k ≤ Int.log 2 |q| := (Int.zpow_le_iff_le_log (by norm_num) hpos).mp (by exact_mod_cast h1)
  have b : Int.log 2 |q| < k + 1 := (Int.lt_zpow_iff_log_lt (by norm_num) hpos).mp (by exact_mod_cast h2)
  omega

theorem roundBinary_eq {t : ℕ} {emin : ℤ} {q : ℚ} (k E n : ℤ) (h1 : (2 : ℚ) ^ k ≤ |q|)
    (h2 : |q| < 2 ^ (k + 1)) (hE : max emin (k - t) = E) (hn : |q / 2 ^ E - n| < 1 / 2) :
    roundBinary t emin q = n * 2 ^ E := by
  unfold roundBinary ulpExp
  rw [log_two_abs_eq h1 h2, hE, roundHalfEven_eq_of_near hn]

theorem roundBinary_zero (t : ℕ) (emin : ℤ) : roundBinary t emin 0 = 0 := by
  unfold roundBinary
  simp [roundHalfEven]

theorem roundBinary_neg (t : ℕ) (emin : ℤ) (q : ℚ) : roundBinary t emin (-q) = -roundBinary t emin q := by
  unfold roundBinary ulpExp
  rw [abs_neg, neg_div, roundHalfEven_neg]
  push_cast; ring

theorem Representable.neg {t : ℕ} {emin : ℤ} {d : ℚ} (h : Representable t emin d) :
    Representable t emin (-d) := by
  obtain ⟨m, e, hm, he, rfl⟩ := h
  exact ⟨-m, e, by rwa [abs_neg], he, by push_cast; ring⟩

theorem roundBinary_le_of_le {t : ℕ} {emin : ℤ} {q d : ℚ} (hd : Representable t emin d)
    (h : q ≤ d) : roundBinary t emin q ≤ d := by
  obtain ⟨m, e, hm, he, rfl⟩ := hd
  by_cases hq : q = 0
  · subst hq; rw [roundBinary_zero]; exact h
  have hE : ulpExp t emin q = max emin (Int.log 2 |q| - t) := rfl
  have hpos : (0 : ℚ) < 2 ^ ulpExp t emin q := by positivity
  unfold roundBinary
  by_cases hcase : ulpExp t emin q ≤ e
  · obtain ⟨k, hk⟩ : ∃ k : ℕ, e = ulpExp t emin q + k := ⟨(e - ulpExp t emin q).toNat, by omega⟩
    have hrw : (m : ℚ) * 2 ^ e = ((m * 2 ^ k : ℤ) : ℚ) * 2 ^ ulpExp t emin q := by
      rw [hk, zpow_add₀ (by norm_num), zpow_natCast]; push_cast; ring
    rw [hrw]
    apply mul_le_mul_of_nonneg_right _ hpos.le
    have : q / 2 ^ ulpExp t emin q ≤ ((m * 2 ^ k : ℤ) : ℚ) := by
      rw [div_le_iff₀ hpos, ← hrw]; exact h
    exact_mod_cast roundHalfEven_le_of_le_int this
  · push_neg at hcase
    have hEq : ulpExp t emin q = Int.log 2 |q| - t := by
      rw [hE]; rw [hE] at hcase; omega
    have hqpos : (0 : ℚ) < |q| := abs_pos.mpr hq
    have hlog : (2 : ℚ) ^ (ulpExp t emin q + t) ≤ |q| := by
      have := Int.zpow_log_le_self (b := 2) (by norm_num) hqpos
      rw [hEq]; simpa using this
    have hdlt : |(m : ℚ) * 2 ^ e| < 2 ^ (ulpExp t emin q + t) := by
      rw [abs_mul, abs_of_pos (by positivity : (0 : ℚ) < 2 ^ e)]
      have hm' : |(m : ℚ)| < 2 ^ (t + 1) := by exact_mod_cast hm
      have he' : (2 : ℚ) ^ e ≤ 2 ^ (ulpExp t emin q - 1) :=
        zpow_le_zpow_right₀ (by norm_num) (by omega)
      calc |(m : ℚ)| * 2 ^ e < 2 ^ (t + 1) * 2 ^ e := by
            apply mul_lt_mul_of_pos_right hm' (by positivity)
        _ ≤ 2 ^ (t + 1) * 2 ^ (ulpExp t emin q - 1) := by
            apply mul_le_mul_of_nonneg_left he' (by positivity)
        _ = 2 ^ (ulpExp t emin q + t) := by
            rw [← zpow_natCast, ← zpow_add₀ (by norm_num)]; congr 1; push_cast; ring
    have hqneg : q < 0 := by
      by_contra hc
      push_neg at hc
      rw [abs_of_nonneg hc] at hlog
      have := le_abs_self ((m : ℚ) * 2 ^ e)
      linarith
    rw [abs_of_neg hqneg] at hlog
    have hint : q / 2 ^ ulpExp t emin q ≤ ((-(2 ^ t) : ℤ) : ℚ) := by
      rw [div_le_iff₀ hpos]; push_cast
      rw [zpow_add₀ (by norm_num), zpow_natCast] at hlog
      linarith
    have hr := roundHalfEven_le_of_le_int hint
    have hr' : (roundHalfEven (q / 2 ^ ulpExp t emin q) : ℚ) ≤ -(2 ^ t) := by exact_mod_cast hr
    have : (roundHalfEven (q / 2 ^ ulpExp t emin q) : ℚ) * 2 ^ ulpExp t emin q
        ≤ -(2 ^ t) * 2 ^ ulpExp t emin q := mul_le_mul_of_nonneg_right hr' hpos.le
    have h3 := neg_abs_le ((m : ℚ) * 2 ^ e)
    rw [zpow_add₀ (by norm_num), zpow_natCast] at hdlt
    linarith

theorem le_roundBinary_of_le {t : ℕ} {emin : ℤ} {q d : ℚ} (hd : Representable t emin d)
    (h : d ≤ q) : d ≤ roundBinary t emin q := by
  have := roundBinary_le_of_le hd.neg (neg_le_neg h)
  rw [roundBinary_neg] at this
  linarith

theorem roundBinary_of_representable {t : ℕ} {emin : ℤ} {d : ℚ} (hd : Representable t emin d) :
    roundBinary t emin d = d :=
  le_antisymm (roundBinary_le_of_le hd le_rfl) (le_roundBinary_of_le hd le_rfl)

/-! ### Values of the formats -/

theorem representable_int {t : ℕ} {emin : ℤ} (n : ℤ) (hn : |n| < 2 ^ (t + 1)) (he : emin ≤ 0) :
    Representable t emin n :=
  ⟨n, 0, hn, he, by simp⟩

theorem F32.abs_m_lt (x : F32) : |x.m| < 2 ^ 24 := by
  have := x.hm
  rw [Int.abs_eq_natAbs]
  exact_mod_cast this

theorem toFloat_intCast (n : ℤ) (hn : |n| ≤ 2 ^ 24) : toFloat n = n := by
  unfold toFloat
  apply roundBinary_of_representable
  rcases lt_or_eq_of_le hn with h | h
  · exact representable_int n (by simpa using h) (by norm_num)
  · rcases abs_eq (by norm_num : (0 : ℤ) ≤ 2 ^ 24) |>.mp h with h' | h'
    · exact ⟨1, 24, by norm_num, by norm_num, by rw [h']; norm_num⟩
    · exact ⟨-1, 24, by norm_num, by norm_num, by rw [h']; norm_num⟩

/-! ### Truncation -/

theorem truncate_intCast (n : ℤ) : truncate n = n := by
  unfold truncate; split_ifs <;> simp

theorem truncate_mono {a b : ℚ} (h : a ≤ b) : truncate a ≤ truncate b := by
  unfold truncate
  split_ifs with ha hb hb
  · exact Int.floor_le_floor h
  · exact absurd (le_trans ha h) hb
  · push_neg at ha
    have h1 : ⌈a⌉ ≤ 0 := Int.ceil_le.mpr (by exact_mod_cast ha.le)
    have h2 : 0 ≤ ⌊b⌋ := Int.floor_nonneg.mpr hb
    omega
  · exact Int.ceil_le_ceil h

theorem truncate_eq_of_nonneg {q : ℚ} {n : ℤ} (h0 : (0 : ℚ) ≤ n) (h1 : (n : ℚ) ≤ q)
    (h2 : q < n + 1) : truncate q = n := by
  unfold truncate
  rw [if_pos (le_trans h0 h1), Int.floor_eq_iff]
  exact ⟨h1, h2⟩

theorem truncate_lt_of_lt {q : ℚ} {n : ℤ} (hn : 0 < n) (h : q < n) : truncate q < n := by
  unfold truncate
  split_ifs with h0
  · exact Int.floor_lt.mpr h
  · push_neg at h0
    have : ⌈q⌉ ≤ 0 := Int.ceil_le.mpr (by exact_mod_cast h0.le)
    omega

theorem truncToInt_of_fits {q : ℚ} (h1 : -2 ^ 31 ≤ truncate q) (h2 : truncate q < 2 ^ 31) :
    truncToInt q = truncate q := by
  unfold truncToInt
  rw [if_pos ⟨h1, h2⟩]

theorem truncToInt_of_overflow {q : ℚ} (h : 2 ^ 31 ≤ truncate q) : truncToInt q = -2 ^ 31 := by
  unfold truncToInt
  rw [if_neg]
  rintro ⟨_, h2⟩
  omega

theorem int_min_le_truncToInt (q : ℚ) : -2 ^ 31 ≤ truncToInt q := by
  unfold truncToInt
  split_ifs with h
  · exact h.1
  · exact le_rfl

theorem truncToInt_lt (q : ℚ) : truncToInt q < 2 ^ 31 := by
  unfold truncToInt
  split_ifs with h
  · exact h.2
  · norm_num

theorem truncToInt_intCast (n : ℤ) (h1 : -2 ^ 31 ≤ n) (h2 : n < 2 ^ 31) : truncToInt n = n := by
  rw [truncToInt_of_fits (by rw [truncate_intCast]; exact h1)
    (by rw [truncate_intCast]; exact h2), truncate_intCast]

theorem truncToInt_mono {a b : ℚ} (h : a ≤ b) (hb : b < 2 ^ 31) :
    truncToInt a ≤ truncToInt b := by
  have hab := truncate_mono h
  have hb' : truncate b < 2 ^ 31 :=
    truncate_lt_of_lt (by norm_num) (by exact_mod_cast hb)
  by_cases ha : -2 ^ 31 ≤ truncate a
  · rw [truncToInt_of_fits ha (by omega), truncToInt_of_fits (by omega) hb']
    exact hab
  · have : truncToInt a = -2 ^ 31 := by
      unfold truncToInt
      rw [if_neg (fun h' => ha h'.1)]
    rw [this]
    exact int_min_le_truncToInt b

theorem truncToInt_eq_of_nonneg {q : ℚ} {n : ℤ} (h0 : (0 : ℚ) ≤ n) (h1 : (n : ℚ) ≤ q)
    (h2 : q < n + 1) (h3 : n < 2 ^ 31) : truncToInt q = n := by
  have ht := truncate_eq_of_nonneg h0 h1 h2
  have h0' : (0 : ℤ) ≤ n := by exact_mod_cast h0
  rw [truncToInt_of_fits (by rw [ht]; omega) (by rw [ht]; exact h3), ht]

namespace InferenceController

theorem decode_loop_eq_pushed (detections : ℕ → F32) (object_size : ℕ) :
    ∀ (n i : ℕ) (results_ : List DetectionResult),
      decode_loop detections object_size n i results_ =
        results_ ++ (pushed_slots detections object_size n i).map
          (current_detection detections object_size) := by
  intro n
  induction n with
  | zero => intro i r; simp [decode_loop, pushed_slots]
  | succ n ih =>
    intro i r
    unfold decode_loop pushed_slots
    by_cases ht : image_id detections object_size i < 0
    · simp [ht]
    · rw [if_neg ht, if_neg ht, ih]
      unfold decode_slot
      by_cases ha : accepted detections object_size i
      · simp [ha]
      · simp [ha]

theorem mem_pushed_slots (detections : ℕ → F32) (object_size : ℕ) :
    ∀ (n i j : ℕ), j ∈ pushed_slots detections object_size n i ↔
      i ≤ j ∧ j < i + n ∧ (∀ k, i ≤ k → k ≤ j → ¬ image_id detections object_size k < 0) ∧
        accepted detections object_size j := by
  intro n
  induction n with
  | zero => intro i j; simp [pushed_slots]; intro h1 h2; omega
  | succ n ih =>
    intro i j
    unfold pushed_slots
    by_cases ht : image_id detections object_size i < 0
    · rw [if_pos ht]
      simp only [List.not_mem_nil, false_iff, not_and]
      intro h1 _ h3
      exact absurd ht (h3 i le_rfl h1)
    · rw [if_neg ht, List.mem_append, ih]
      constructor
      · rintro (h | ⟨h1, h2, h3, h4⟩)
        · by_cases ha : accepted detections object_size i
          · rw [if_pos ha, List.mem_singleton] at h
            subst h
            refine ⟨le_rfl, by omega, ?_, ha⟩
            intro k hk1 hk2
            have : k = j := le_antisymm hk2 hk1
            rw [this]; exact ht
          · rw [if_neg ha] at h; simp at h
        · refine ⟨by omega, by omega, ?_, h4⟩
          intro k hk1 hk2
          rcases Nat.eq_or_lt_of_le hk1 with h | h
          · rw [← h]; exact ht
          · exact h3 k h hk2
      · rintro ⟨h1, h2, h3, h4⟩
        rcases Nat.eq_or_lt_of_le h1 with h | h
        · left; subst h; rw [if_pos h4]; simp
        · right
          exact ⟨h, by omega, fun k hk1 hk2 => h3 k (by omega) hk2, h4⟩

theorem pairwise_pushed_slots (detections : ℕ → F32) (object_size : ℕ) :
    ∀ (n i : ℕ), (pushed_slots detections object_size n i).Pairwise (· < ·) := by
  intro n
  induction n with
  | zero => intro i; simp [pushed_slots]
  | succ n ih =>
    intro i
    unfold pushed_slots
    split_ifs with ht ha
    · exact List.Pairwise.nil
    · rw [List.singleton_append, List.pairwise_cons]
      refine ⟨?_, ih (i + 1)⟩
      intro j hj
      have := (mem_pushed_slots detections object_size n (i + 1) j).mp hj
      omega
    · simpa using ih (i + 1)

theorem mem_pushed_slots_zero (self : InferenceController) (detections : ℕ → F32) (j : ℕ) :
    j ∈ pushed_slots detections self.object_size self.max_proposals 0 ↔
      reached detections self.object_size self.max_proposals j ∧
        accepted detections self.object_size j := by
  rw [mem_pushed_slots]
  unfold reached
  constructor
  · rintro ⟨_, h2, h3, h4⟩
    exact ⟨⟨by omega, fun k hk => h3 k (Nat.zero_le k) hk⟩, h4⟩
  · rintro ⟨⟨h1, h2⟩, h4⟩
    exact ⟨Nat.zero_le j, by omega, fun k _ hk => h2 k hk, h4⟩

theorem decode_output_eq (self : InferenceController) (detections : ℕ → F32) :
    decode_output self detections =
      (pushed_slots detections self.object_size self.max_proposals 0).map
        (current_detection detections self.object_size) := by
  unfold decode_output
  rw [decode_loop_eq_pushed]; simp

end InferenceController

/-! ## Evaluation of the literals and of the example coordinates -/

theorem mulDouble_eq {a b : ℚ} (k E n : ℤ) (h1 : (2 : ℚ) ^ k ≤ |a * b|)
    (h2 : |a * b| < 2 ^ (k + 1)) (hE : max (-1074) (k - (52 : ℕ)) = E)
    (hn : |a * b / 2 ^ E - n| < 1 / 2) : mulDouble a b = n * 2 ^ E :=
  roundBinary_eq k E n h1 h2 hE hn

theorem c0_95_eq : c0_95 = 8556839292003942 / 2 ^ 53 := by
  unfold c0_95 toDouble
  rw [roundBinary_eq (-1) (-53) 8556839292003942 (by norm_num [abs_of_pos])
    (by norm_num [abs_of_pos]) (by norm_num) (by norm_num [abs_lt])]
  norm_num

theorem c1_05_eq : c1_05 = 4728779608739021 / 2 ^ 52 := by
  unfold c1_05 toDouble
  rw [roundBinary_eq 0 (-52) 4728779608739021 (by norm_num [abs_of_pos])
    (by norm_num [abs_of_pos]) (by norm_num) (by norm_num [abs_lt])]
  norm_num

theorem c0_55_eq : c0_55 = 4953959590107546 / 2 ^ 53 := by
  unfold c0_55 toDouble
  rw [roundBinary_eq (-1) (-53) 4953959590107546 (by norm_num [abs_of_pos])
    (by norm_num [abs_of_pos]) (by norm_num) (by norm_num [abs_lt])]
  norm_num

theorem truncToInt_scaled {c x s v1 v2 : ℚ} {r : ℤ} (h1 : mulDouble c x = v1)
    (h2 : mulDouble v1 s = v2) (h3 : truncToInt v2 = r) :
    truncToInt (mulDouble (mulDouble c x) s) = r := by rw [h1, h2, h3]

theorem scaled_min_tenth_960 :
    truncToInt (mulDouble (mulDouble c0_95 (13421773 / 2 ^ 27)) 960) = 91 := by
  rw [c0_95_eq]
  exact truncToInt_scaled
    (mulDouble_eq (-4) (-56) 6845471535608627 (by norm_num [abs_of_pos])
      (by norm_num [abs_of_pos]) (by norm_num) (by norm_num [abs_lt]))
    (mulDouble_eq 6 (-46) 6417629564633088 (by norm_num [abs_of_pos])
      (by norm_num [abs_of_pos]) (by norm_num) (by norm_num [abs_lt]))
    (truncToInt_eq_of_nonneg (by norm_num) (by norm_num) (by norm_num) (by norm_num))

theorem scaled_min_tenth_720 :
    truncToInt (mulDouble (mulDouble c0_95 (13421773 / 2 ^ 27)) 720) = 68 := by
  rw [c0_95_eq]
  exact truncToInt_scaled
    (mulDouble_eq (-4) (-56) 6845471535608627 (by norm_num [abs_of_pos])
      (by norm_num [abs_of_pos]) (by norm_num) (by norm_num [abs_lt]))
    (mulDouble_eq 6 (-46) 4813222173474816 (by norm_num [abs_of_pos])
      (by norm_num [abs_of_pos]) (by norm_num) (by norm_num [abs_lt]))
    (truncToInt_eq_of_nonneg (by norm_num) (by norm_num) (by norm_num) (by norm_num))

theorem scaled_max_half_960 :
    truncToInt (mulDouble (mulDouble c1_05 (1 / 2)) 960) = 504 := by
  rw [c1_05_eq]
  exact truncToInt_scaled
    (mulDouble_eq (-1) (-53) 4728779608739021 (by norm_num [abs_of_pos])
      (by norm_num [abs_of_pos]) (by norm_num) (by norm_num [abs_lt]))
    (mulDouble_eq 8 (-44) 8866461766385664 (by norm_num [abs_of_pos])
      (by norm_num [abs_of_pos]) (by norm_num) (by norm_num [abs_lt]))
    (truncToInt_eq_of_nonneg (by norm_num) (by norm_num) (by norm_num) (by norm_num))

theorem scaled_max_half_720 :
    truncToInt (mulDouble (mulDouble c1_05 (1 / 2)) 720) = 378 := by
  rw [c1_05_eq]
  exact truncToInt_scaled
    (mulDouble_eq (-1) (-53) 4728779608739021 (by norm_num [abs_of_pos])
      (by norm_num [abs_of_pos]) (by norm_num) (by norm_num [abs_lt]))
    (mulDouble_eq 8 (-44) 6649846324789248 (by norm_num [abs_of_pos])
      (by norm_num [abs_of_pos]) (by norm_num) (by norm_num [abs_lt]))
    (truncToInt_eq_of_nonneg (by norm_num) (by norm_num) (by norm_num) (by norm_num))

theorem scaled_min_0_4375_960 :
    truncToInt (mulDouble (mulDouble c0_95 (7 / 16)) 960) = 398 := by
  rw [c0_95_eq]
  exact truncToInt_scaled
    (mulDouble_eq (-2) (-54) 7487234380503449 (by norm_num [abs_of_pos])
      (by norm_num [abs_of_pos]) (by norm_num) (by norm_num [abs_lt]))
    (mulDouble_eq 8 (-44) 7019282231721983 (by norm_num [abs_of_pos])
      (by norm_num [abs_of_pos]) (by norm_num) (by norm_num [abs_lt]))
    (truncToInt_eq_of_nonneg (by norm_num) (by norm_num) (by norm_num) (by norm_num))

theorem scaled_min_0_4375_720 :
    truncToInt (mulDouble (mulDouble c0_95 (7 / 16)) 720) = 299 := by
  rw [c0_95_eq]
  exact truncToInt_scaled
    (mulDouble_eq (-2) (-54) 7487234380503449 (by norm_num [abs_of_pos])
      (by norm_num [abs_of_pos]) (by norm_num) (by norm_num [abs_lt]))
    (mulDouble_eq 8 (-44) 5264461673791488 (by norm_num [abs_of_pos])
      (by norm_num [abs_of_pos]) (by norm_num) (by norm_num [abs_lt]))
    (truncToInt_eq_of_nonneg (by norm_num) (by norm_num) (by norm_num) (by norm_num))

theorem scaled_min_65536_next_960 :
    truncToInt (mulDouble (mulDouble c0_95 (8388609 / 2 ^ 7)) 960) = 59768839 := by
  rw [c0_95_eq]
  exact truncToInt_scaled
    (mulDouble_eq 15 (-37) 8556840312058675 (by norm_num [abs_of_pos])
      (by norm_num [abs_of_pos]) (by norm_num) (by norm_num [abs_lt]))
    (mulDouble_eq 25 (-27) 8022037792555008 (by norm_num [abs_of_pos])
      (by norm_num [abs_of_pos]) (by norm_num) (by norm_num [abs_lt]))
    (truncToInt_eq_of_nonneg (by norm_num) (by norm_num) (by norm_num) (by norm_num))

theorem intToFloat_of_abs_le (n : ℤ) (hn : |n| ≤ 2 ^ 24) : intToFloat n = n :=
  toFloat_intCast n hn

theorem intToFloat_59768839 : intToFloat 59768839 = 59768840 := by
  unfold intToFloat toFloat
  rw [roundBinary_eq 25 2 14942210 (by norm_num [abs_of_pos]) (by norm_num [abs_of_pos])
    (by norm_num) (by norm_num [abs_lt])]
  norm_num

/-! ## Decoding a blob with one candidate -/

theorem f32_zero_toRat : f32_zero.toRat = 0 := by norm_num [f32_zero, F32.ofInt, F32.toRat]

theorem f32_one_toRat : f32_one.toRat = 1 := by norm_num [f32_one, F32.ofInt, F32.toRat]

theorem f32_minus_one_toRat : f32_minus_one.toRat = -1 := by
  norm_num [f32_minus_one, F32.ofInt, F32.toRat]

theorem f32_1_5_toRat : f32_1_5.toRat = 3 / 2 := by norm_num [f32_1_5, F32.toRat]

theorem f32_half_toRat : f32_half.toRat = 1 / 2 := by norm_num [f32_half, F32.toRat]

theorem f32_0_4375_toRat : f32_0_4375.toRat = 7 / 16 := by norm_num [f32_0_4375, F32.toRat]

theorem f32_0_1_toRat : f32_0_1.toRat = 13421773 / 2 ^ 27 := by norm_num [f32_0_1, F32.toRat]

theorem f32_0_9_toRat : f32_0_9.toRat = 15099494 / 2 ^ 24 := by norm_num [f32_0_9, F32.toRat]

theorem f32_65536_next_toRat : f32_65536_next.toRat = 8388609 / 2 ^ 7 := by
  norm_num [f32_65536_next, F32.toRat]

theorem truncToInt_one : truncToInt 1 = 1 := by
  have := truncToInt_intCast 1 (by norm_num) (by norm_num)
  simpa using this

theorem truncToInt_three_halves : truncToInt (3 / 2) = 1 :=
  truncToInt_eq_of_nonneg (by norm_num) (by norm_num) (by norm_num) (by norm_num)

namespace InferenceController

theorem decode_output_slot_blob (self : InferenceController) (label conf x0 y0 x1 y1 : F32)
    (hos : self.object_size = 7) (hmp : 2 ≤ self.max_proposals) :
    decode_output self (slot_blob label conf x0 y0 x1 y1) =
      decode_slot (slot_blob label conf x0 y0 x1 y1) 7 0 [] := by
  unfold decode_output
  obtain ⟨n, hn⟩ : ∃ n, self.max_proposals = n + 2 := ⟨self.max_proposals - 2, by omega⟩
  rw [hos, hn]
  have h0 : ¬ image_id (slot_blob label conf x0 y0 x1 y1) 7 0 < 0 := by
    show ¬ f32_zero.toRat < 0
    rw [f32_zero_toRat]; norm_num
  have h1 : image_id (slot_blob label conf x0 y0 x1 y1) 7 1 < 0 := by
    show f32_minus_one.toRat < 0
    rw [f32_minus_one_toRat]; norm_num
  rw [decode_loop, if_neg h0, decode_loop, if_pos h1]

theorem decode_output_slot_blob_accepted (self : InferenceController)
    (label conf x0 y0 x1 y1 : F32) (hos : self.object_size = 7) (hmp : 2 ≤ self.max_proposals)
    (a b c d : ℤ) (hconf : c0_55 < conf.toRat) (hlabel : truncToInt label.toRat = 1)
    (ha : truncToInt (mulDouble (mulDouble c0_95 x0.toRat) 960) = a)
    (hb : truncToInt (mulDouble (mulDouble c0_95 y0.toRat) 720) = b)
    (hc : truncToInt (mulDouble (mulDouble c1_05 x1.toRat) 960) = c)
    (hd : truncToInt (mulDouble (mulDouble c1_05 y1.toRat) 720) = d) :
    decode_output self (slot_blob label conf x0 y0 x1 y1) =
      [⟨intToFloat (max 0 a), intToFloat (max 0 b), intToFloat (min 960 c),
        intToFloat (min 720 d), 1, 0⟩] := by
  rw [decode_output_slot_blob self label conf x0 y0 x1 y1 hos hmp]
  have hacc : accepted (slot_blob label conf x0 y0 x1 y1) 7 0 := ⟨hconf, hlabel⟩
  rw [decode_slot, if_pos hacc, ← ha, ← hb, ← hc, ← hd, ← hlabel]
  rfl

theorem decode_output_example :
    decode_output controller_ssd (slot_blob f32_one f32_0_9 f32_0_1 f32_0_1 f32_half f32_half) =
      [⟨91, 68, 504, 378, 1, 0⟩] := by
  rw [decode_output_slot_blob_accepted controller_ssd _ _ _ _ _ _ rfl (by decide) 91 68 504 378
    (by rw [c0_55_eq, f32_0_9_toRat]; norm_num) (by rw [f32_one_toRat]; exact truncToInt_one)
    (by rw [f32_0_1_toRat]; exact scaled_min_tenth_960)
    (by rw [f32_0_1_toRat]; exact scaled_min_tenth_720)
    (by rw [f32_half_toRat]; exact scaled_max_half_960)
    (by rw [f32_half_toRat]; exact scaled_max_half_720)]
  norm_num [intToFloat_of_abs_le]

end InferenceController

/-! ## The filter -/

theorem one_le_c1_05 : 1 ≤ c1_05 := by rw [c1_05_eq]; norm_num

theorem spec_threshold_lt_c0_55 : (55 : ℚ) / 100 < c0_55 := by rw [c0_55_eq]; norm_num

theorem F32.c0_55_lt_of_spec_threshold_lt (x : F32) (h : 55 / 100 < x.toRat) :
    c0_55 < x.toRat := by
  rw [c0_55_eq]
  by_contra hc
  push_neg at hc
  have hm := x.abs_m_lt
  unfold F32.toRat at h hc
  have hpos : (0 : ℚ) < 2 ^ x.e := by positivity
  by_cases he : x.e ≤ -25
  · have h2 : (2 : ℚ) ^ x.e ≤ 2 ^ (-25 : ℤ) := zpow_le_zpow_right₀ (by norm_num) he
    have h3 : (x.m : ℚ) ≤ 2 ^ 24 := by
      exact_mod_cast le_of_lt (lt_of_le_of_lt (le_abs_self _) hm)
    have h4 : (x.m : ℚ) * 2 ^ x.e ≤ 2 ^ 24 * 2 ^ (-25 : ℤ) := by
      by_cases hm0 : (x.m : ℚ) ≤ 0
      · have h5 : (x.m : ℚ) * 2 ^ x.e ≤ 0 := mul_nonpos_of_nonpos_of_nonneg hm0 hpos.le
        have h6 : (0 : ℚ) ≤ 2 ^ 24 * 2 ^ (-25 : ℤ) := by positivity
        linarith
      · push_neg at hm0
        calc (x.m : ℚ) * 2 ^ x.e ≤ 2 ^ 24 * 2 ^ x.e := mul_le_mul_of_nonneg_right h3 hpos.le
          _ ≤ 2 ^ 24 * 2 ^ (-25 : ℤ) := mul_le_mul_of_nonneg_left h2 (by positivity)
    norm_num at h4
    linarith
  · push_neg at he
    obtain ⟨k, hk⟩ : ∃ k : ℕ, x.e = -24 + k := ⟨(x.e + 24).toNat, by omega⟩
    rw [hk, zpow_add₀ (by norm_num), zpow_natCast] at h hc
    have hN : ((x.m * 2 ^ k : ℤ) : ℚ) = (x.m : ℚ) * 2 ^ k := by push_cast; ring
    have h1 : ((9227468 : ℤ) : ℚ) < ((x.m * 2 ^ k : ℤ) : ℚ) := by
      rw [hN]; norm_num at h ⊢; linarith
    have h2 : ((x.m * 2 ^ k : ℤ) : ℚ) < ((9227469 : ℤ) : ℚ) := by
      rw [hN]; norm_num at hc ⊢; linarith
    have h1' : (9227468 : ℤ) < x.m * 2 ^ k := by exact_mod_cast h1
    have h2' : x.m * 2 ^ k < (9227469 : ℤ) := by exact_mod_cast h2
    omega

theorem truncToInt_eq_one_iff (q : ℚ) : truncToInt q = 1 ↔ 1 ≤ q ∧ q < 2 := by
  constructor
  · intro h
    have ht : truncate q = 1 := by
      unfold truncToInt at h
      split_ifs at h
      · exact h
      · norm_num at h
    unfold truncate at ht
    split_ifs at ht with h0
    · rw [Int.floor_eq_iff] at ht
      norm_num at ht
      exact ⟨ht.1, by linarith [ht.2]⟩
    · push_neg at h0
      have : ⌈q⌉ ≤ 0 := Int.ceil_le.mpr (by exact_mod_cast h0.le)
      omega
  · rintro ⟨h1, h2⟩
    exact truncToInt_eq_of_nonneg (by norm_num) (by exact_mod_cast h1) (by norm_num; linarith)
      (by norm_num)

namespace InferenceController

/-- The `float` nearest to 0.55 is greater than the `double` literal `0.55`: a
candidate that stores `0.55f` as its confidence, with label 1, passes the filter. -/
theorem accepted_nearest_float_to_threshold (x0 y0 x1 y1 : F32) :
    55 / 100 < f32_0_55.toRat ∧
      accepted (slot_blob f32_one f32_0_55 x0 y0 x1 y1) 7 0 := by
  have h : f32_0_55.toRat = 9227469 / 2 ^ 24 := by norm_num [f32_0_55, F32.toRat]
  refine ⟨by rw [h]; norm_num, ?_, ?_⟩
  · show c0_55 < f32_0_55.toRat
    rw [c0_55_eq, h]; norm_num
  · show truncToInt f32_one.toRat = 1
    rw [f32_one_toRat]; exact truncToInt_one

/-- C4. The sequence returned by `process_frames` lists the accepted candidates in
ascending slot index, one detection per accepted slot: `idx`, the strictly increasing
list of the slots that the loop reaches and the filter accepts, maps each result
position to its slot, and the result is the list of the detections computed from
those slots, in that order and of that length (nothing re-sorted, nothing removed). -/
theorem process_frames_order_stable (self : InferenceController) (detections : ℕ → F32) :
    ∃ idx : List ℕ, idx.Pairwise (· < ·) ∧
      (∀ i, i ∈ idx ↔ reached detections self.object_size self.max_proposals i ∧
        accepted detections self.object_size i) ∧
      decode_output self detections =
        idx.map (current_detection detections self.object_size) ∧
      (decode_output self detections).length = idx.length :=
  ⟨pushed_slots detections self.object_size self.max_proposals 0,
    pairwise_pushed_slots _ _ _ _, mem_pushed_slots_zero self detections,
    decode_output_eq self detections, by rw [decode_output_eq]; simp⟩

/-- C2. The confidence threshold is strict. With `idx` the increasing list of the
slots whose detections make up the result: a slot whose confidence is at most 0.55
does not occur in `idx`, whatever its label and coordinates, and a slot that the loop
reaches, whose label field is 1 and whose confidence exceeds 0.55, occurs in `idx`
exactly once. -/
theorem confidence_threshold_strict (self : InferenceController) (detections : ℕ → F32) :
    ∃ idx : List ℕ, idx.Pairwise (· < ·) ∧
      (∀ i, i ∈ idx ↔ reached detections self.object_size self.max_proposals i ∧
        accepted detections self.object_size i) ∧
      decode_output self detections =
        idx.map (current_detection detections self.object_size) ∧
      (∀ i, confidence detections self.object_size i ≤ 55 / 100 → idx.count i = 0) ∧
      (∀ i, reached detections self.object_size self.max_proposals i →
        slot_field detections self.object_size i 1 = 1 →
        55 / 100 < confidence detections self.object_size i → idx.count i = 1) := by
  refine ⟨pushed_slots detections self.object_size self.max_proposals 0,
    pairwise_pushed_slots _ _ _ _, mem_pushed_slots_zero self detections,
    decode_output_eq self detections, ?_, ?_⟩
  · intro i hi
    rw [List.count_eq_zero, mem_pushed_slots_zero]
    rintro ⟨_, hacc, _⟩
    have := spec_threshold_lt_c0_55
    linarith
  · intro i hr hl hc
    have hnodup : (pushed_slots detections self.object_size self.max_proposals 0).Nodup :=
      (pairwise_pushed_slots _ _ _ _).imp (fun h => ne_of_lt h)
    apply List.count_eq_one_of_mem hnodup
    rw [mem_pushed_slots_zero]
    refine ⟨hr, F32.c0_55_lt_of_spec_threshold_lt _ hc, ?_⟩
    unfold object_label
    rw [hl]; exact truncToInt_one

/-- C3, as amended. The label test is made on the label field converted to `int`,
that is truncated toward zero. With `idx` the increasing list of the slots whose
detections make up the result: a slot whose truncated label field differs from 1
does not occur in `idx`, whatever its confidence and coordinates; every slot of `idx`
has its label field in `[1, 2)`; every returned detection carries label 1. -/
theorem label_filter_truncated (self : InferenceController) (detections : ℕ → F32) :
    ∃ idx : List ℕ, idx.Pairwise (· < ·) ∧
      (∀ i, i ∈ idx ↔ reached detections self.object_size self.max_proposals i ∧
        accepted detections self.object_size i) ∧
      decode_output self detections =
        idx.map (current_detection detections self.object_size) ∧
      (∀ i, truncToInt (slot_field detections self.object_size i 1) ≠ 1 → idx.count i = 0) ∧
      (∀ i, i ∈ idx → 1 ≤ slot_field detections self.object_size i 1 ∧
        slot_field detections self.object_size i 1 < 2) ∧
      (∀ d, d ∈ decode_output self detections → d.label = 1) := by
  refine ⟨pushed_slots detections self.object_size self.max_proposals 0,
    pairwise_pushed_slots _ _ _ _, mem_pushed_slots_zero self detections,
    decode_output_eq self detections, ?_, ?_, ?_⟩
  · intro i hi
    rw [List.count_eq_zero, mem_pushed_slots_zero]
    rintro ⟨_, _, hl⟩
    exact hi hl
  · intro i hi
    rw [mem_pushed_slots_zero] at hi
    exact (truncToInt_eq_one_iff _).mp hi.2.2
  · intro d hd
    rw [decode_output_eq, List.mem_map] at hd
    obtain ⟨i, hi, rfl⟩ := hd
    rw [mem_pushed_slots_zero] at hi
    exact hi.2.2

/-- C3, counterexample. A candidate whose label field is 1.5, not the target label 1,
with confidence `0.9f` and the box `(0.1f, 0.1f, 0.5, 0.5)`: the conversion to `int`
gives 1 and the detection `(91, 68, 504, 378)` with label 1 is returned. -/
theorem label_filter_counterexample :
    slot_field (slot_blob f32_1_5 f32_0_9 f32_0_1 f32_0_1 f32_half f32_half) 7 0 1 ≠ 1 ∧
    decode_output controller_ssd
        (slot_blob f32_1_5 f32_0_9 f32_0_1 f32_0_1 f32_half f32_half) =
      [⟨91, 68, 504, 378, 1, 0⟩] := by
  constructor
  · show f32_1_5.toRat ≠ 1
    rw [f32_1_5_toRat]; norm_num
  · rw [decode_output_slot_blob_accepted controller_ssd _ _ _ _ _ _ rfl (by decide) 91 68 504 378
      (by rw [c0_55_eq, f32_0_9_toRat]; norm_num)
      (by rw [f32_1_5_toRat]; exact truncToInt_three_halves)
      (by rw [f32_0_1_toRat]; exact scaled_min_tenth_960)
      (by rw [f32_0_1_toRat]; exact scaled_min_tenth_720)
      (by rw [f32_half_toRat]; exact scaled_max_half_960)
      (by rw [f32_half_toRat]; exact scaled_max_half_720)]
    norm_num [intToFloat_of_abs_le]

end InferenceController

/-! ## Rescaling and clipping -/

theorem f32_2_pow_22_toRat : f32_2_pow_22.toRat = 4194304 := by
  norm_num [f32_2_pow_22, F32.toRat]

theorem scaled_max_2_pow_22_960 :
    truncToInt (mulDouble (mulDouble c1_05 4194304) 960) = -2 ^ 31 := by
  rw [c1_05_eq]
  exact truncToInt_scaled
    (mulDouble_eq 22 (-30) 4728779608739021 (by norm_num [abs_of_pos])
      (by norm_num [abs_of_pos]) (by norm_num) (by norm_num [abs_lt]))
    (mulDouble_eq 31 (-21) 8866461766385664 (by norm_num [abs_of_pos])
      (by norm_num [abs_of_pos]) (by norm_num) (by norm_num [abs_lt]))
    (truncToInt_of_overflow (by
      rw [@truncate_eq_of_nonneg _ 4227858432 (by norm_num) (by norm_num) (by norm_num)]
      norm_num))

theorem scaled_max_2_pow_22_720 :
    truncToInt (mulDouble (mulDouble c1_05 4194304) 720) = -2 ^ 31 := by
  rw [c1_05_eq]
  exact truncToInt_scaled
    (mulDouble_eq 22 (-30) 4728779608739021 (by norm_num [abs_of_pos])
      (by norm_num [abs_of_pos]) (by norm_num) (by norm_num [abs_lt]))
    (mulDouble_eq 31 (-21) 6649846324789248 (by norm_num [abs_of_pos])
      (by norm_num [abs_of_pos]) (by norm_num) (by norm_num [abs_lt]))
    (truncToInt_of_overflow (by
      rw [@truncate_eq_of_nonneg _ 3170893824 (by norm_num) (by norm_num) (by norm_num)]
      norm_num))

theorem intToFloat_int_min : intToFloat (-2 ^ 31) = -2 ^ 31 := by
  unfold intToFloat toFloat
  have h : ((-2 ^ 31 : ℤ) : ℚ) = -2 ^ 31 := by norm_num
  rw [h]
  exact roundBinary_of_representable ⟨-1, 31, by norm_num, by norm_num, by norm_num⟩

theorem scaled_max_upper (b : F32) (s : ℚ) (hs : ∃ n : ℤ, (n : ℚ) = s ∧ 0 ≤ n ∧ n ≤ 1024)
    (hb : b.toRat ≤ 1) : mulDouble (mulDouble c1_05 b.toRat) s ≤ 17 / 16 * s := by
  obtain ⟨n, rfl, hn0, hn1⟩ := hs
  have hn0' : (0 : ℚ) ≤ n := by exact_mod_cast hn0
  have hc : c1_05 ≤ 17 / 16 := by rw [c1_05_eq]; norm_num
  have hc0 : (0 : ℚ) ≤ c1_05 := le_trans (by norm_num) one_le_c1_05
  have hv : mulDouble c1_05 b.toRat ≤ 17 / 16 :=
    roundBinary_le_of_le ⟨17, -4, by norm_num, by norm_num, by norm_num⟩ (by nlinarith)
  refine roundBinary_le_of_le ⟨17 * n, -4, ?_, by norm_num, by push_cast; ring⟩
    (mul_le_mul_of_nonneg_right hv hn0')
  rw [abs_of_nonneg (by omega)]
  calc 17 * n ≤ 17 * 1024 := by omega
    _ < 2 ^ (52 + 1) := by norm_num

namespace InferenceController

theorem decode_output_overflow :
    decode_output controller_ssd
        (slot_blob f32_one f32_0_9 f32_0_1 f32_0_1 f32_2_pow_22 f32_2_pow_22) =
      [⟨91, 68, -2147483648, -2147483648, 1, 0⟩] := by
  rw [decode_output_slot_blob_accepted controller_ssd _ _ _ _ _ _ rfl (by decide)
    91 68 (-2 ^ 31) (-2 ^ 31)
    (by rw [c0_55_eq, f32_0_9_toRat]; norm_num) (by rw [f32_one_toRat]; exact truncToInt_one)
    (by rw [f32_0_1_toRat]; exact scaled_min_tenth_960)
    (by rw [f32_0_1_toRat]; exact scaled_min_tenth_720)
    (by rw [f32_2_pow_22_toRat]; exact scaled_max_2_pow_22_960)
    (by rw [f32_2_pow_22_toRat]; exact scaled_max_2_pow_22_720)]
  rw [show min (960 : ℤ) (-2 ^ 31) = -2 ^ 31 by decide,
    show min (720 : ℤ) (-2 ^ 31) = -2 ^ 31 by decide, intToFloat_int_min]
  norm_num [intToFloat_of_abs_le]

/-- C1, counterexample. (a) The candidate with the box `(0.4375, 0.4375, 0.5, 0.5)`: in
exact arithmetic `0.95 * 0.4375 * 960 = 399`, but `0.95` is the `double` below 19/20,
the two `double` products give `398.99999999999994`, and the detection returned has
`xmin = 398`. (b) The candidate with `xmin_norm = 65536.0078125f`: the formula gives the
integer 59768839, in exact arithmetic and in `double` arithmetic alike, which no
`float` field can hold; the detection returned has `xmin = 59768840`. (c) The
candidate with the max corner `(4194304.0f, 4194304.0f)`: the products 4227858432 and
3170893824 do not fit the 32-bit `int`, the conversion yields `INT_MIN`, and the
detection returned has `xmax = ymax = -2147483648` where the formula gives 960 and
720. -/
theorem rescale_counterexample :
    decode_output controller_ssd
        (slot_blob f32_one f32_0_9 f32_0_4375 f32_0_4375 f32_half f32_half) =
      [⟨398, 299, 504, 378, 1, 0⟩] ∧
    spec_min_px f32_0_4375.toRat 960 = 399 ∧
    decode_output controller_ssd
        (slot_blob f32_one f32_0_9 f32_65536_next f32_0_4375 f32_half f32_half) =
      [⟨59768840, 299, 504, 378, 1, 0⟩] ∧
    spec_min_px f32_65536_next.toRat 960 = 59768839 ∧
    max 0 (xmin (slot_blob f32_one f32_0_9 f32_65536_next f32_0_4375 f32_half f32_half) 7 0) =
      59768839 ∧
    decode_output controller_ssd
        (slot_blob f32_one f32_0_9 f32_0_1 f32_0_1 f32_2_pow_22 f32_2_pow_22) =
      [⟨91, 68, -2147483648, -2147483648, 1, 0⟩] ∧
    spec_max_px f32_2_pow_22.toRat 960 = 960 ∧
    spec_max_px f32_2_pow_22.toRat 720 = 720 := by
  refine ⟨?_, ?_, ?_, ?_, ?_, decode_output_overflow, ?_, ?_⟩
  · rw [decode_output_slot_blob_accepted controller_ssd _ _ _ _ _ _ rfl (by decide)
      398 299 504 378
      (by rw [c0_55_eq, f32_0_9_toRat]; norm_num) (by rw [f32_one_toRat]; exact truncToInt_one)
      (by rw [f32_0_4375_toRat]; exact scaled_min_0_4375_960)
      (by rw [f32_0_4375_toRat]; exact scaled_min_0_4375_720)
      (by rw [f32_half_toRat]; exact scaled_max_half_960)
      (by rw [f32_half_toRat]; exact scaled_max_half_720)]
    norm_num [intToFloat_of_abs_le]
  · unfold spec_min_px
    rw [f32_0_4375_toRat, @truncate_eq_of_nonneg _ 399 (by norm_num) (by norm_num)
      (by norm_num)]
    rfl
  · rw [decode_output_slot_blob_accepted controller_ssd _ _ _ _ _ _ rfl (by decide)
      59768839 299 504 378
      (by rw [c0_55_eq, f32_0_9_toRat]; norm_num) (by rw [f32_one_toRat]; exact truncToInt_one)
      (by rw [f32_65536_next_toRat]; exact scaled_min_65536_next_960)
      (by rw [f32_0_4375_toRat]; exact scaled_min_0_4375_720)
      (by rw [f32_half_toRat]; exact scaled_max_half_960)
      (by rw [f32_half_toRat]; exact scaled_max_half_720)]
    rw [show max (0 : ℤ) 59768839 = 59768839 by decide, intToFloat_59768839]
    norm_num [intToFloat_of_abs_le]
  · unfold spec_min_px
    rw [f32_65536_next_toRat, @truncate_eq_of_nonneg _ 59768839 (by norm_num)
      (by norm_num) (by norm_num)]
    rfl
  · have h : xmin (slot_blob f32_one f32_0_9 f32_65536_next f32_0_4375 f32_half f32_half) 7 0 =
        truncToInt (mulDouble (mulDouble c0_95 f32_65536_next.toRat) 960) := rfl
    rw [h, f32_65536_next_toRat, scaled_min_65536_next_960]
    rfl
  · unfold spec_max_px
    rw [f32_2_pow_22_toRat, @truncate_eq_of_nonneg _ 4227858432 (by norm_num) (by norm_num)
      (by norm_num)]
    rfl
  · unfold spec_max_px
    rw [f32_2_pow_22_toRat, @truncate_eq_of_nonneg _ 3170893824 (by norm_num) (by norm_num)
      (by norm_num)]
    rfl

/-- C1, as amended. For every slot that `process_frames` accepts (`idx` is the
increasing list of the slots whose detections make up the result) the emitted
detection is
`xmin = float(max(0, trunc(0.95 * xmin_norm * 960)))`,
`ymin = float(max(0, trunc(0.95 * ymin_norm * 720)))`,
`xmax = float(min(960, trunc(1.05 * xmax_norm * 960)))`,
`ymax = float(min(720, trunc(1.05 * ymax_norm * 720)))`, label 1, distance 0, where
`0.95` and `1.05` are the `double` literals, each product is the `double` product
taken left to right, `trunc` is the conversion to the 32-bit `int`, which rounds
toward zero whenever the rounded value fits `int` (and is `truncToInt` beyond), and
`float` is the conversion to the single-precision field, which changes no integer of
magnitude at most `2 ^ 24`; for a slot whose four products fit `int` the formula is
stated with the truncation itself. The
constants 960 and 720 do not depend on the frame. A computed `xmax` above 960 yields
exactly 960, a negative computed `xmin` yields exactly 0, and the box
`(0.1f, 0.1f, 0.5, 0.5)` with confidence `0.9f` yields `(91, 68, 504, 378)`. -/
theorem rescale_clip_formula (self : InferenceController) (detections : ℕ → F32) :
    ∃ idx : List ℕ, idx.Pairwise (· < ·) ∧
      (∀ i, i ∈ idx ↔ reached detections self.object_size self.max_proposals i ∧
        accepted detections self.object_size i) ∧
      decode_output self detections =
        idx.map (current_detection detections self.object_size) ∧
      (∀ i, i ∈ idx → current_detection detections self.object_size i =
        { xmin := intToFloat (max 0 (truncToInt (mulDouble
            (mulDouble c0_95 (slot_field detections self.object_size i 3)) 960)))
          ymin := intToFloat (max 0 (truncToInt (mulDouble
            (mulDouble c0_95 (slot_field detections self.object_size i 4)) 720)))
          xmax := intToFloat (min 960 (truncToInt (mulDouble
            (mulDouble c1_05 (slot_field detections self.object_size i 5)) 960)))
          ymax := intToFloat (min 720 (truncToInt (mulDouble
            (mulDouble c1_05 (slot_field detections self.object_size i 6)) 720)))
          label := 1
          distance := 0 }) ∧
      (∀ i, i ∈ idx →
        fits_int (mulDouble (mulDouble c0_95 (slot_field detections self.object_size i 3)) 960) →
        fits_int (mulDouble (mulDouble c0_95 (slot_field detections self.object_size i 4)) 720) →
        fits_int (mulDouble (mulDouble c1_05 (slot_field detections self.object_size i 5)) 960) →
        fits_int (mulDouble (mulDouble c1_05 (slot_field detections self.object_size i 6)) 720) →
        current_detection detections self.object_size i =
        { xmin := intToFloat (max 0 (truncate (mulDouble
            (mulDouble c0_95 (slot_field detections self.object_size i 3)) 960)))
          ymin := intToFloat (max 0 (truncate (mulDouble
            (mulDouble c0_95 (slot_field detections self.object_size i 4)) 720)))
          xmax := intToFloat (min 960 (truncate (mulDouble
            (mulDouble c1_05 (slot_field detections self.object_size i 5)) 960)))
          ymax := intToFloat (min 720 (truncate (mulDouble
            (mulDouble c1_05 (slot_field detections self.object_size i 6)) 720)))
          label := 1
          distance := 0 }) ∧
      (∀ q : ℚ, -2 ^ 31 ≤ truncate q → truncate q < 2 ^ 31 → truncToInt q = truncate q) ∧
      (∀ n : ℤ, |n| ≤ 2 ^ 24 → intToFloat n = n) ∧
      (∀ i, 960 < xmax detections self.object_size i →
        (current_detection detections self.object_size i).xmax = 960) ∧
      (∀ i, xmin detections self.object_size i < 0 →
        (current_detection detections self.object_size i).xmin = 0) ∧
      decode_output controller_ssd
          (slot_blob f32_one f32_0_9 f32_0_1 f32_0_1 f32_half f32_half) =
        [⟨91, 68, 504, 378, 1, 0⟩] := by
  refine ⟨pushed_slots detections self.object_size self.max_proposals 0,
    pairwise_pushed_slots _ _ _ _, mem_pushed_slots_zero self detections,
    decode_output_eq self detections, ?_, ?_, fun q h1 h2 => truncToInt_of_fits h1 h2,
    intToFloat_of_abs_le, ?_, ?_, decode_output_example⟩
  · intro i hi
    rw [mem_pushed_slots_zero] at hi
    have hl : object_label detections self.object_size i = 1 := hi.2.2
    unfold current_detection
    rw [hl]
    rfl
  · intro i hi f1 f2 f3 f4
    rw [mem_pushed_slots_zero] at hi
    have hl : object_label detections self.object_size i = 1 := hi.2.2
    unfold current_detection xmin ymin xmax ymax
    rw [hl, truncToInt_of_fits f1.1 f1.2, truncToInt_of_fits f2.1 f2.2,
      truncToInt_of_fits f3.1 f3.2, truncToInt_of_fits f4.1 f4.2]
  · intro i hi
    unfold current_detection
    simp only
    rw [min_eq_left hi.le, intToFloat_of_abs_le _ (by norm_num)]
    norm_num
  · intro i hi
    unfold current_detection
    simp only
    rw [max_eq_left hi.le, intToFloat_of_abs_le _ (by norm_num)]
    norm_num

end InferenceController

/-! ## Termination of the decode loop -/

namespace InferenceController

theorem decode_loop_stop (detections : ℕ → F32) (object_size : ℕ) :
    ∀ (a b i : ℕ) (results_ : List DetectionResult),
      (0 < b → image_id detections object_size (i + a) < 0) →
      decode_loop detections object_size (a + b) i results_ =
        decode_loop detections object_size a i results_ := by
  intro a
  induction a with
  | zero =>
    intro b i r h
    cases b with
    | zero => rfl
    | succ b =>
      have := h (Nat.succ_pos b)
      rw [Nat.add_zero] at this
      rw [Nat.zero_add]
      simp [decode_loop, this]
  | succ a ih =>
    intro b i r h
    rw [show a + 1 + b = (a + b) + 1 by omega, decode_loop, decode_loop]
    by_cases ht : image_id detections object_size i < 0
    · rw [if_pos ht, if_pos ht]
    · rw [if_neg ht, if_neg ht]
      apply ih
      intro hb
      have := h hb
      rwa [show i + (a + 1) = i + 1 + a by omega] at this

theorem decode_slot_congr (detections detections' : ℕ → F32) (object_size i : ℕ)
    (results_ : List DetectionResult)
    (h : ∀ k, k < 7 → slot_field detections' object_size i k =
      slot_field detections object_size i k) :
    decode_slot detections' object_size i results_ =
      decode_slot detections object_size i results_ := by
  unfold decode_slot accepted current_detection confidence object_label xmin ymin xmax ymax
  simp only [h 1 (by norm_num), h 2 (by norm_num), h 3 (by norm_num), h 4 (by norm_num),
    h 5 (by norm_num), h 6 (by norm_num)]

theorem decode_loop_congr (detections detections' : ℕ → F32) (object_size : ℕ) :
    ∀ (a i : ℕ) (results_ : List DetectionResult),
      (∀ j, i ≤ j → j < i + a → ∀ k, k < 7 →
        slot_field detections' object_size j k = slot_field detections object_size j k) →
      decode_loop detections' object_size a i results_ =
        decode_loop detections object_size a i results_ := by
  intro a
  induction a with
  | zero => intro i r _; rfl
  | succ a ih =>
    intro i r h
    rw [decode_loop, decode_loop]
    have hi := h i le_rfl (by omega)
    have h0 : image_id detections' object_size i = image_id detections object_size i :=
      hi 0 (by norm_num)
    rw [h0, decode_slot_congr detections detections' object_size i r hi]
    by_cases ht : image_id detections object_size i < 0
    · rw [if_pos ht, if_pos ht]
    · rw [if_neg ht, if_neg ht]
      exact ih (i + 1) _ (fun j hj1 hj2 => h j (by omega) (by omega))

theorem pushed_slots_eq_filter (detections : ℕ → F32) (object_size : ℕ) :
    ∀ (a i : ℕ), (∀ j, i ≤ j → j < i + a → ¬ image_id detections object_size j < 0) →
      pushed_slots detections object_size a i =
        (List.range' i a).filter (fun j => decide (accepted detections object_size j)) := by
  intro a
  induction a with
  | zero => intro i _; rfl
  | succ a ih =>
    intro i h
    have ht := h i le_rfl (by omega)
    rw [pushed_slots, if_neg ht, List.range'_succ, List.filter_cons,
      ih (i + 1) (fun j hj1 hj2 => h j (by omega) (by omega))]
    by_cases ha : accepted detections object_size i
    · simp [ha]
    · simp [ha]

/-- C5. Let `n` be the index of the first slot with a negative `image_id` below
`max_proposals`, or `max_proposals` when there is none. The decode loop inspects
exactly the slots below `n`: the result has at most `n` detections; it is the filter
applied to every slot below `n`, in order (so without a terminator all
`max_proposals` slots are filtered, and the loop ends); and it is the same for every
other buffer that has the same seven fields in the slots below `n` and, when
`n < max_proposals`, a negative `image_id` in slot `n`; for `object_size ≥ 7` these
are the buffers that agree with it below position `n * object_size`, whatever they
hold from slot `n` on. -/
theorem decode_bounded_by_terminator (self : InferenceController) (detections : ℕ → F32)
    (n : ℕ) (hn : n ≤ self.max_proposals)
    (hvalid : ∀ i, i < n → 0 ≤ image_id detections self.object_size i)
    (hstop : n < self.max_proposals → image_id detections self.object_size n < 0) :
    (decode_output self detections).length ≤ n ∧
      decode_output self detections =
        ((List.range n).filter
          (fun i => decide (accepted detections self.object_size i))).map
          (current_detection detections self.object_size) ∧
      (∀ detections' : ℕ → F32,
        (∀ i, i < n → ∀ k, k < 7 → slot_field detections' self.object_size i k =
          slot_field detections self.object_size i k) →
        (n < self.max_proposals → image_id detections' self.object_size n < 0) →
        decode_output self detections' = decode_output self detections) ∧
      (7 ≤ self.object_size → ∀ detections' : ℕ → F32,
        (∀ j, j < n * self.object_size → (detections' j).toRat = (detections j).toRat) →
        (n < self.max_proposals → image_id detections' self.object_size n < 0) →
        decode_output self detections' = decode_output self detections) := by
  obtain ⟨b, hb⟩ : ∃ b, self.max_proposals = n + b := ⟨self.max_proposals - n, by omega⟩
  have hcut : ∀ d : ℕ → F32, (n < self.max_proposals → image_id d self.object_size n < 0) →
      decode_output self d = decode_loop d self.object_size n 0 [] := by
    intro d hd
    unfold decode_output
    rw [hb]
    apply decode_loop_stop
    intro hb0
    rw [Nat.zero_add]
    exact hd (by omega)
  have heq : decode_output self detections =
      ((List.range n).filter
        (fun i => decide (accepted detections self.object_size i))).map
        (current_detection detections self.object_size) := by
    rw [hcut detections hstop, decode_loop_eq_pushed, List.nil_append,
      pushed_slots_eq_filter detections self.object_size n 0
        (fun j _ hj => not_lt.mpr (hvalid j (by omega))),
      List.range_eq_range']
  have hinv : ∀ d : ℕ → F32,
      (∀ i, i < n → ∀ k, k < 7 → slot_field d self.object_size i k =
        slot_field detections self.object_size i k) →
      (n < self.max_proposals → image_id d self.object_size n < 0) →
      decode_output self d = decode_output self detections := by
    intro d hd1 hd2
    rw [hcut d hd2, hcut detections hstop]
    exact decode_loop_congr detections d self.object_size n 0 []
      (fun j _ hj k hk => hd1 j (by omega) k hk)
  refine ⟨?_, heq, hinv, ?_⟩
  · rw [heq, List.length_map]
    calc _ ≤ (List.range n).length := List.length_filter_le _ _
      _ = n := List.length_range n
  · intro hos d hd1 hd2
    refine hinv d ?_ hd2
    intro i hi k hk
    apply hd1
    calc i * self.object_size + k < i * self.object_size + self.object_size := by omega
      _ = (i + 1) * self.object_size := by ring
      _ ≤ n * self.object_size := Nat.mul_le_mul_right _ hi

/-- C5, witness: one candidate in slot 0 and the terminator in slot 1, `n = 1`. -/
theorem decode_bounded_by_terminator_witness :
    (decode_output controller_ssd
      (slot_blob f32_one f32_0_9 f32_0_1 f32_0_1 f32_half f32_half)).length ≤ 1 :=
  (decode_bounded_by_terminator controller_ssd
    (slot_blob f32_one f32_0_9 f32_0_1 f32_0_1 f32_half f32_half) 1 (by decide)
    (by
      intro i hi
      have : i = 0 := by omega
      subst this
      show 0 ≤ f32_zero.toRat
      rw [f32_zero_toRat])
    (by
      intro _
      show f32_minus_one.toRat < 0
      rw [f32_minus_one_toRat]; norm_num)).1

end InferenceController

/-! ## The planar encode -/

namespace InferenceController

theorem plane_index_iff {S p : ℕ} (hp : p < S) (j c : ℕ) :
    j = c * S + p ↔ j % S = p ∧ j / S = c := by
  constructor
  · intro h
    subst h
    constructor
    · rw [Nat.mul_comm, Nat.mul_add_mod, Nat.mod_eq_of_lt hp]
    · rw [Nat.mul_comm, Nat.mul_add_div (by omega), Nat.div_eq_of_lt hp, Nat.add_zero]
  · rintro ⟨h1, h2⟩
    have := Nat.div_add_mod j S
    rw [h1, h2, Nat.mul_comm] at this
    exact this.symm

theorem encode_pixel_stores (img_input : Mat) (S p : ℕ) :
    ∀ (C : ℕ) (buf : InputBlob), (encode_pixel img_input S C p buf).stores =
      buf.stores ++ (List.range C).map (fun ch => ch * S + p) := by
  intro C
  induction C with
  | zero => intro buf; simp [encode_pixel]
  | succ C ih =>
    intro buf
    have hstep : encode_pixel img_input S (C + 1) p buf =
        store (encode_pixel img_input S C p buf) (C * S + p) (img_input.data p C) := by
      unfold encode_pixel
      rw [List.range_succ, List.foldl_append]
      rfl
    rw [hstep, List.range_succ, List.map_append]
    simp [store, ih]

theorem encode_pixel_data (img_input : Mat) (S p : ℕ) (hp : p < S) :
    ∀ (C : ℕ) (buf : InputBlob) (j : ℕ), (encode_pixel img_input S C p buf).data j =
      if j % S = p ∧ j / S < C then img_input.data p (j / S) else buf.data j := by
  intro C
  induction C with
  | zero => intro buf j; simp [encode_pixel]
  | succ C ih =>
    intro buf j
    have hstep : encode_pixel img_input S (C + 1) p buf =
        store (encode_pixel img_input S C p buf) (C * S + p) (img_input.data p C) := by
      unfold encode_pixel
      rw [List.range_succ, List.foldl_append]
      rfl
    rw [hstep]
    unfold store
    simp only
    by_cases hj : j = C * S + p
    · rw [hj, Function.update_same]
      have := (plane_index_iff hp (C * S + p) C).mp rfl
      rw [if_pos ⟨this.1, by omega⟩, this.2]
    · rw [Function.update_noteq hj, ih]
      have hne : ¬ (j % S = p ∧ j / S = C) := fun h => hj ((plane_index_iff hp j C).mpr h)
      by_cases h1 : j % S = p ∧ j / S < C
      · rw [if_pos h1, if_pos ⟨h1.1, by omega⟩]
      · rw [if_neg h1, if_neg]
        rintro ⟨h2, h3⟩
        by_cases h4 : j / S = C
        · exact hne ⟨h2, h4⟩
        · exact h1 ⟨h2, by omega⟩

theorem encode_fold_step (img_input : Mat) (S C n : ℕ) (buf : InputBlob) :
    (List.range (n + 1)).foldl (fun b pixel => encode_pixel img_input S C pixel b) buf =
      encode_pixel img_input S C n
        ((List.range n).foldl (fun b pixel => encode_pixel img_input S C pixel b) buf) := by
  rw [List.range_succ, List.foldl_append]
  rfl

theorem encode_fold_data (img_input : Mat) (S C : ℕ) (buf : InputBlob) :
    ∀ (n : ℕ), n ≤ S → ∀ j,
      ((List.range n).foldl (fun b pixel => encode_pixel img_input S C pixel b) buf).data j =
        if j % S < n ∧ j / S < C then img_input.data (j % S) (j / S) else buf.data j := by
  intro n
  induction n with
  | zero => intro _ j; simp
  | succ n ih =>
    intro hn j
    rw [encode_fold_step, encode_pixel_data img_input S n (by omega), ih (by omega)]
    by_cases h1 : j % S = n ∧ j / S < C
    · rw [if_pos h1, if_pos ⟨by omega, h1.2⟩, h1.1]
    · rw [if_neg h1]
      by_cases h2 : j % S < n ∧ j / S < C
      · rw [if_pos h2, if_pos ⟨by omega, h2.2⟩]
      · rw [if_neg h2, if_neg]
        rintro ⟨h3, h4⟩
        by_cases h5 : j % S = n
        · exact h1 ⟨h5, h4⟩
        · exact h2 ⟨by omega, h4⟩

theorem encode_fold_stores_length (img_input : Mat) (S C : ℕ) (buf : InputBlob) :
    ∀ (n : ℕ),
      ((List.range n).foldl (fun b pixel => encode_pixel img_input S C pixel b) buf).stores.length =
        buf.stores.length + n * C := by
  intro n
  induction n with
  | zero => simp
  | succ n ih =>
    rw [encode_fold_step, encode_pixel_stores, List.length_append, ih, List.length_map,
      List.length_range]
    ring

theorem encode_fold_mem_stores (img_input : Mat) (S C : ℕ) (buf : InputBlob) :
    ∀ (n : ℕ), n ≤ S → ∀ j,
      j ∈ ((List.range n).foldl
          (fun b pixel => encode_pixel img_input S C pixel b) buf).stores ↔
        j ∈ buf.stores ∨ (j % S < n ∧ j / S < C) := by
  intro n
  induction n with
  | zero => intro _ j; simp
  | succ n ih =>
    intro hn j
    rw [encode_fold_step, encode_pixel_stores, List.mem_append, ih (by omega), List.mem_map]
    have hp : n < S := by omega
    constructor
    · rintro (h | ⟨c, hc, rfl⟩)
      · rcases h with h | h
        · exact Or.inl h
        · exact Or.inr ⟨by omega, h.2⟩
      · have := (plane_index_iff hp (c * S + n) c).mp rfl
        exact Or.inr ⟨by omega, by rw [this.2]; exact List.mem_range.mp hc⟩
    · rintro (h | ⟨h1, h2⟩)
      · exact Or.inl (Or.inl h)
      · by_cases h3 : j % S = n
        · right
          exact ⟨j / S, List.mem_range.mpr h2, ((plane_index_iff hp j (j / S)).mpr ⟨h3, rfl⟩).symm⟩
        · exact Or.inl (Or.inr ⟨by omega, h2⟩)

/-- C6. Planar encode. For every resized image, `H = input_height`,
`W = input_width` and three channels, after the encode loop the input buffer holds
channel `c` of pixel `p` at position `c * H * W + p`, for every `p` in `[0, H * W)`
and `c` in `[0, 3)`; the sequence of positions stored to is a permutation of
`0, ..., 3 * H * W - 1` (exactly these positions, each once); the memory from
`3 * H * W` on is left as it was. -/
theorem planar_encode (img_input : Mat) (input_height input_width : ℕ)
    (input_memory : ℕ → UInt8) :
    (∀ p c, p < input_height * input_width → c < 3 →
      (encode_input img_input (input_height * input_width) 3 ⟨input_memory, []⟩).data
        (c * (input_height * input_width) + p) = img_input.data p c) ∧
    List.Perm (encode_input img_input (input_height * input_width) 3 ⟨input_memory, []⟩).stores
      (List.range (3 * (input_height * input_width))) ∧
    (∀ j, 3 * (input_height * input_width) ≤ j →
      (encode_input img_input (input_height * input_width) 3 ⟨input_memory, []⟩).data j =
        input_memory j) := by
  set S := input_height * input_width with hS
  refine ⟨?_, ?_, ?_⟩
  · intro p c hp hc
    unfold encode_input
    rw [encode_fold_data img_input S 3 _ S le_rfl]
    have := (plane_index_iff hp (c * S + p) c).mp rfl
    rw [if_pos ⟨by omega, by omega⟩, this.1, this.2]
  · apply List.Perm.symm
    apply List.Subperm.perm_of_length_le
    · apply List.subperm_of_subset (List.nodup_range _)
      intro j hj
      rw [List.mem_range] at hj
      unfold encode_input
      rw [encode_fold_mem_stores img_input S 3 _ S le_rfl]
      right
      have hpos : 0 < S := by
        rcases Nat.eq_zero_or_pos S with h | h
        · rw [h] at hj; omega
        · exact h
      exact ⟨Nat.mod_lt _ hpos, (Nat.div_lt_iff_lt_mul hpos).mpr hj⟩
    · unfold encode_input
      rw [encode_fold_stores_length, List.length_range]
      simp [Nat.mul_comm]
  · intro j hj
    unfold encode_input
    rw [encode_fold_data img_input S 3 _ S le_rfl, if_neg]
    rintro ⟨h1, h2⟩
    have hpos : 0 < S := by omega
    have := (Nat.div_lt_iff_lt_mul hpos).mp h2
    omega

end InferenceController

/-! ## `process_frames` as a whole, and `start` -/

namespace InferenceController

theorem in_try_true_or_none {α : Type} (call : Except String α) (self : InferenceController)
    (rest : α → InferenceController × Option Bool)
    (h : ∀ a, (rest a).2 = some true ∨ (rest a).2 = none) :
    (in_try call self rest).2 = some true ∨ (in_try call self rest).2 = none := by
  unfold in_try
  cases call with
  | error e => exact Or.inr rfl
  | ok a => exact h a

theorem in_try_none {α β : Type} (call : Except String α) (self : InferenceController)
    (rest : α → InferenceController × Option β) (h : ∀ a, (rest a).2 = none) :
    (in_try call self rest).2 = none := by
  unfold in_try
  cases call with
  | error e => rfl
  | ok a => exact h a

theorem process_frames_clear (be : Backend) (self : InferenceController)
    (color_matrix depth_matrix : Mat) :
    process_frames be self color_matrix depth_matrix =
      process_frames be { self with results_ := [] } color_matrix depth_matrix := rfl

theorem process_frames_metadata (be : Backend) (self : InferenceController)
    (color_matrix depth_matrix : Mat) :
    { (process_frames be self color_matrix depth_matrix).1 with results_ := [] } =
      { self with results_ := [] } := by
  unfold process_frames in_try
  simp only
  split
  · rfl
  · split
    · rfl
    · split
      · rfl
      · rfl

theorem process_frames_returns (be : Backend) (self : InferenceController)
    (color_matrix depth_matrix : Mat) (r : List DetectionResult)
    (h : (process_frames be self color_matrix depth_matrix).2 = some r) :
    ∃ (img_input : Mat) (input_memory : ℕ → UInt8) (detections : ℕ → F32),
      be.resize color_matrix (resize_dsize self) = .ok img_input ∧
      be.inputBlob = .ok input_memory ∧
      be.Infer (encode_input img_input (self.input_height * self.input_width)
        self.channels_count ⟨input_memory, []⟩).data = .ok detections ∧
      r = decode_output self detections := by
  unfold process_frames in_try at h
  simp only at h
  split at h
  · simp at h
  · rename_i img_input himg
    split at h
    · simp at h
    · rename_i input_memory hin
      split at h
      · simp at h
      · rename_i detections hdet
        refine ⟨img_input, input_memory, detections, himg, hin, hdet, ?_⟩
        simp only [Option.some.injEq] at h
        exact h.symm

theorem process_frames_ok (be : Backend) (self : InferenceController)
    (color_matrix depth_matrix img_input : Mat) (input_memory : ℕ → UInt8)
    (detections : ℕ → F32)
    (h1 : be.resize color_matrix (resize_dsize self) = .ok img_input)
    (h2 : be.inputBlob = .ok input_memory)
    (h3 : be.Infer (encode_input img_input (self.input_height * self.input_width)
      self.channels_count ⟨input_memory, []⟩).data = .ok detections) :
    (process_frames be self color_matrix depth_matrix).2 =
      some (decode_output self detections) := by
  have e1 : resize_dsize { self with results_ := [] } = resize_dsize self := rfl
  unfold process_frames in_try
  simp only [e1, h1, h2, h3]
  rfl

/-- C7. Per-call isolation. For two controller states with the same model metadata
that differ only in the detections stored by an earlier call, `process_frames` on
the same frame and backend returns the same result and leaves the same state; the
result of a call that follows another call equals the result of that call made
alone; a returned sequence is the decode of the output blob of this call's
inference and of the metadata, nothing else. -/
theorem per_call_isolation (be : Backend) (s1 s2 : InferenceController)
    (color_matrix depth_matrix : Mat)
    (h : { s1 with results_ := [] } = { s2 with results_ := [] }) :
    process_frames be s1 color_matrix depth_matrix =
        process_frames be s2 color_matrix depth_matrix ∧
      (∀ (be0 : Backend) (color0 depth0 : Mat),
        (process_frames be (process_frames be0 s1 color0 depth0).1 color_matrix depth_matrix).2 =
          (process_frames be s1 color_matrix depth_matrix).2) ∧
      (∀ r, (process_frames be s1 color_matrix depth_matrix).2 = some r →
        ∃ (img_input : Mat) (input_memory : ℕ → UInt8) (detections : ℕ → F32),
          be.resize color_matrix (resize_dsize s1) = .ok img_input ∧
          be.inputBlob = .ok input_memory ∧
          be.Infer (encode_input img_input (s1.input_height * s1.input_width)
            s1.channels_count ⟨input_memory, []⟩).data = .ok detections ∧
          r = decode_output s1 detections) := by
  refine ⟨?_, ?_, ?_⟩
  · rw [process_frames_clear be s1, process_frames_clear be s2, h]
  · intro be0 color0 depth0
    rw [process_frames_clear be (process_frames be0 s1 color0 depth0).1,
      process_frames_metadata, ← process_frames_clear]
  · intro r hr
    exact process_frames_returns be s1 color_matrix depth_matrix r hr

/-- C7, witness: a controller holding a stale detection and a fresh one. -/
theorem per_call_isolation_witness :
    process_frames (backend_const (slot_blob f32_one f32_0_9 f32_0_1 f32_0_1 f32_half f32_half))
        controller_stale frame_black frame_black =
      process_frames (backend_const (slot_blob f32_one f32_0_9 f32_0_1 f32_0_1 f32_half f32_half))
        controller_ssd frame_black frame_black :=
  (per_call_isolation _ controller_stale controller_ssd frame_black frame_black rfl).1

/-- C9, evaluation of the code. `start` returns `true` or reaches the end of the
function without a `return`; it never returns `false`. Whenever `ReadNetwork` throws,
and in particular for the backend of a missing model file, no value is returned;
on a backend whose calls all succeed `true` is returned. -/
theorem start_never_returns_false (be : Backend) (self : InferenceController) :
    ((start be self).2 = some true ∨ (start be self).2 = none) ∧
      (∀ msg, be.ReadNetwork self.path_to_model_ = .error msg → (start be self).2 = none) ∧
      (start backend_missing_model controller_ssd).2 = none ∧
      start (backend_const (fun _ => f32_zero)) controller_ssd = (controller_ssd, some true) := by
  refine ⟨?_, ?_, ?_, ?_⟩
  · unfold start
    repeat' (apply in_try_true_or_none; intro _)
    exact Or.inl rfl
  · intro msg hmsg
    unfold start
    apply in_try_none; intro _
    apply in_try_none; intro _
    rw [hmsg]
    rfl
  · have : backend_missing_model.ReadNetwork controller_ssd.path_to_model_ =
        .error "Cannot open model file" := rfl
    unfold start
    apply in_try_none; intro _
    apply in_try_none; intro _
    rw [this]
    rfl
  · simp [start, in_try, backend_const, controller_ssd, dim_at]

/-- C10, evaluation of the code. The target size passed to `cv::resize` has
`width = input_height` and `height = input_width`: for `input_height = 2`,
`input_width = 3` it asks for an image 2 wide and 3 high, that is 3 rows by 2
columns. -/
theorem resize_dsize_swapped (self : InferenceController) :
    (resize_dsize self).width = self.input_height ∧
      (resize_dsize self).height = self.input_width ∧
      resize_dsize controller_2x3 = { width := 2, height := 3 } :=
  ⟨rfl, rfl, rfl⟩

end InferenceController

/-! ## The theorems at concrete inputs -/

namespace InferenceController

theorem reached_slot_blob_zero (label conf x0 y0 x1 y1 : F32) :
    reached (slot_blob label conf x0 y0 x1 y1) controller_ssd.object_size
      controller_ssd.max_proposals 0 := by
  refine ⟨by decide, ?_⟩
  intro j hj
  have : j = 0 := by omega
  subst this
  show ¬ f32_zero.toRat < 0
  rw [f32_zero_toRat]; norm_num

/-- C2, witness: the candidate with label field 1 and confidence `0.9f` in slot 0 is
emitted. -/
theorem confidence_threshold_strict_witness :
    current_detection (slot_blob f32_one f32_0_9 f32_0_1 f32_0_1 f32_half f32_half) 7 0 ∈
      decode_output controller_ssd
        (slot_blob f32_one f32_0_9 f32_0_1 f32_0_1 f32_half f32_half) := by
  obtain ⟨idx, _, _, heq, _, hacc⟩ := confidence_threshold_strict controller_ssd
    (slot_blob f32_one f32_0_9 f32_0_1 f32_0_1 f32_half f32_half)
  have h := hacc 0 (reached_slot_blob_zero _ _ _ _ _ _)
    (by show f32_one.toRat = 1; exact f32_one_toRat)
    (by show 55 / 100 < f32_0_9.toRat; rw [f32_0_9_toRat]; norm_num)
  rw [heq]
  exact List.mem_map_of_mem _ (List.count_pos_iff.mp (by omega))

/-- C3, witness: the candidate of slot 0 with label field 1 is returned with label 1. -/
theorem label_filter_truncated_witness :
    (current_detection (slot_blob f32_one f32_0_9 f32_0_1 f32_0_1 f32_half f32_half) 7 0).label =
      1 := by
  obtain ⟨idx, _, hiff, heq, _, _, hlab⟩ := label_filter_truncated controller_ssd
    (slot_blob f32_one f32_0_9 f32_0_1 f32_0_1 f32_half f32_half)
  have hmem : 0 ∈ idx := (hiff 0).mpr ⟨reached_slot_blob_zero _ _ _ _ _ _,
    by show c0_55 < f32_0_9.toRat; rw [c0_55_eq, f32_0_9_toRat]; norm_num,
    by show truncToInt f32_one.toRat = 1; rw [f32_one_toRat]; exact truncToInt_one⟩
  apply hlab
  rw [heq]
  exact List.mem_map_of_mem _ hmem

/-- C1, witness: the max corner `(1.0, 1.0)` has a computed `xmax` of at least 1005,
and the detection has `xmax = 960`. -/
theorem rescale_clip_formula_witness :
    (current_detection (slot_blob f32_one f32_0_9 f32_0_1 f32_0_1 f32_one f32_one) 7 0).xmax =
      960 := by
  obtain ⟨idx, _, _, _, _, _, _, _, hclip, _, _⟩ := rescale_clip_formula controller_ssd
    (slot_blob f32_one f32_0_9 f32_0_1 f32_0_1 f32_one f32_one)
  apply hclip
  have h : xmax (slot_blob f32_one f32_0_9 f32_0_1 f32_0_1 f32_one f32_one)
      controller_ssd.object_size 0 =
        truncToInt (mulDouble (mulDouble c1_05 f32_one.toRat) 960) := rfl
  rw [h, f32_one_toRat]
  have h1 : (67 / 64 : ℚ) ≤ mulDouble c1_05 1 :=
    le_roundBinary_of_le ⟨67, -6, by norm_num, by norm_num, by norm_num⟩
      (by rw [c1_05_eq]; norm_num)
  have h2 : (1005 : ℚ) ≤ mulDouble (mulDouble c1_05 1) 960 :=
    le_roundBinary_of_le ⟨1005, 0, by norm_num, by norm_num, by norm_num⟩ (by linarith)
  have hup : mulDouble (mulDouble c1_05 1) 960 < 2 ^ 31 := by
    have := scaled_max_upper f32_one 960 ⟨960, by norm_num, by norm_num, by norm_num⟩
      (by rw [f32_one_toRat])
    rw [f32_one_toRat] at this
    norm_num at this ⊢
    linarith
  have h3 := truncToInt_mono h2 hup
  rw [show (1005 : ℚ) = ((1005 : ℤ) : ℚ) by norm_num,
    truncToInt_intCast 1005 (by norm_num) (by norm_num)] at h3
  omega

/-- C4, witness: two slots with identical contents give two detections. -/
theorem process_frames_order_stable_witness :
    2 ≤ (decode_output controller_ssd twin_blob).length := by
  obtain ⟨idx, hpair, hiff, _, hlen⟩ := process_frames_order_stable controller_ssd twin_blob
  have hacc : ∀ i, i < 2 → accepted twin_blob controller_ssd.object_size i := by
    intro i hi
    have : i = 0 ∨ i = 1 := by omega
    rcases this with rfl | rfl
    · exact ⟨by show c0_55 < f32_0_9.toRat; rw [c0_55_eq, f32_0_9_toRat]; norm_num,
        by show truncToInt f32_one.toRat = 1; rw [f32_one_toRat]; exact truncToInt_one⟩
    · exact ⟨by show c0_55 < f32_0_9.toRat; rw [c0_55_eq, f32_0_9_toRat]; norm_num,
        by show truncToInt f32_one.toRat = 1; rw [f32_one_toRat]; exact truncToInt_one⟩
  have hid : ∀ j, j ≤ 1 → ¬ image_id twin_blob controller_ssd.object_size j < 0 := by
    intro j hj
    have : j = 0 ∨ j = 1 := by omega
    rcases this with rfl | rfl
    · show ¬ f32_zero.toRat < 0
      rw [f32_zero_toRat]; norm_num
    · show ¬ f32_zero.toRat < 0
      rw [f32_zero_toRat]; norm_num
  have h0 : 0 ∈ idx := (hiff 0).mpr ⟨⟨by decide, fun j hj => hid j (by omega)⟩, hacc 0 (by omega)⟩
  have h1 : 1 ∈ idx := (hiff 1).mpr ⟨⟨by decide, fun j hj => hid j hj⟩, hacc 1 (by omega)⟩
  have hsub : [0, 1] ⊆ idx := by
    intro x hx
    simp only [List.mem_cons, List.mem_singleton, List.not_mem_nil, or_false] at hx
    rcases hx with rfl | rfl
    · exact h0
    · exact h1
  have := (List.subperm_of_subset (by decide : [0, 1].Nodup) hsub).length_le
  rw [hlen]
  simpa using this

/-- C6, witness: in the encoding of a 2 x 2 image, position `2 * 4 + 3` holds channel 2
of pixel 3. -/
theorem planar_encode_witness :
    (encode_input image_2x2 (2 * 2) 3 ⟨fun _ => 0, []⟩).data (2 * (2 * 2) + 3) = 32 :=
  (planar_encode image_2x2 2 2 (fun _ => 0)).1 3 2 (by decide) (by decide)

end InferenceController
